import Mathlib

/-!
Shallow embedding of the statement-extraction pipeline of the
clover-calculator repository (backend/apps/statements): the numeric
normalisation helpers of `extractors/base.py`, the Chase parser of
`extractors/chase.py`, the processor detection of `extractors/factory.py`
and the orchestration of `services.py`.

Python `Decimal` values are modelled by `PyDec`: an exact rational for
finite values, a quiet or signaling NaN, or a signed infinity.  The
`Decimal(string)` constructor is modelled by the full decimal
numeric-string grammar (optional sign; `digits[.digits][E[sign]digits]`,
also `.digits` and `digits.`; `Infinity`/`Inf`; `[s]NaN[digits]`; all
case-insensitive), applied after stripping surrounding whitespace and
removing underscores, exactly as the `decimal` module does; conversion
from a string is exact and never rounds.  Arithmetic on finite values is
modelled exactly; the `decimal` context rounds each result to 28
significant digits, which coincides with the exact value whenever it
fits in that precision (monetary sums in particular, and every concrete
document below), and correct rounding preserves the sign facts proved
about arbitrary documents.  Operations that make the
`decimal` module signal `InvalidOperation` (arithmetic or ordering with
a signaling NaN, ordering with any NaN, adding opposite infinities) are
modelled by `Option.none` and threaded to the `except` handler that
catches them in the source.  Python `int` is `ℤ` and `int(string)` is
modelled with its own grammar (PEP 515 underscores between digits).
The character-level string model is faithful on ASCII text: non-ASCII
decimal digits, which Python's numeric conversions accept, are outside
the modeled domain, and the theorems whose force depends on which
strings parse carry an explicit ASCII hypothesis.  The `re` patterns
used by the parser are modelled by direct, deterministic matchers for
the exact pattern shapes appearing in the source (the analysis that the
deterministic matcher agrees with the backtracking regex on these
shapes is recorded at each matcher).
-/

/-- Characters matched by Python's `\s` (ASCII range), stripped by
`str.strip()` and by the `Decimal` constructor (the four ASCII
separator control characters `\x1c`-`\x1f` are whitespace to Python). -/
def pySpace (c : Char) : Bool :=
  c = ' ' || c = '\t' || c = '\n' || c = '\r' || c = '\x0b' || c = '\x0c' ||
    c = '\x1c' || c = '\x1d' || c = '\x1e' || c = '\x1f'

/-- Characters `int()` strips from the ends of its input (the C-level
`isspace` set, a strict subset of the `str.strip()` set: `int()` does
not strip `\x1c`-`\x1f`). -/
def intSpace (c : Char) : Bool :=
  c = ' ' || c = '\t' || c = '\n' || c = '\r' || c = '\x0b' || c = '\x0c'

/-- Strip characters satisfying `p` from both ends of a character
list. -/
def stripBy (p : Char → Bool) (cs : List Char) : List Char :=
  ((cs.dropWhile p).reverse.dropWhile p).reverse

/-- Python `str.strip()` on a character list. -/
def pyStrip (cs : List Char) : List Char := stripBy pySpace cs

/-- Structural `span`: longest prefix of characters satisfying `p`,
paired with the rest (the behaviour of `List.span`, restated by
structural recursion so that terms reduce). -/
def listSpan (p : Char → Bool) : List Char → List Char × List Char
  | [] => ([], [])
  | c :: rest =>
      if p c then
        let r := listSpan p rest
        (c :: r.1, r.2)
      else ([], c :: rest)

/-- Helper for splitting a character list at a separator character. -/
def splitCharAux (sep : Char) : List Char → List Char → List (List Char)
  | [], acc => [acc.reverse]
  | c :: rest, acc =>
      if c = sep then acc.reverse :: splitCharAux sep rest []
      else splitCharAux sep rest (c :: acc)

/-- Python `s.split('\n')` (note `''.split('\n') = ['']`). -/
def pySplitLines (s : String) : List String :=
  (splitCharAux '\n' s.data []).map String.mk

/-- Python `str.upper()` (ASCII, as all matched phrases are ASCII). -/
def pyUpper (s : String) : String :=
  String.mk (s.data.map Char.toUpper)

/-- Python `str.lower()` (ASCII). -/
def pyLower (s : String) : String :=
  String.mk (s.data.map Char.toLower)

/-- Occurrence test for a pattern inside a character list (Python's
`pat in s` for a non-empty `pat`): some suffix starts with `pat`. -/
def subOccurs (pat : List Char) : List Char → Bool
  | [] => decide (pat = [])
  | c :: rest => pat.isPrefixOf (c :: rest) || subOccurs pat rest

/-- Python substring containment `pat in s`. -/
def strContains (s pat : String) : Bool :=
  subOccurs pat.data s.data

/-- Numeric value of a digit list (most significant first). -/
def decDigits (cs : List Char) : ℕ :=
  cs.foldl (fun n c => 10 * n + (c.toNat - 48)) 0

/-- Parsed form of a decimal numeric string: a finite value as a signed
coefficient with a decimal exponent, a (quiet or signaling) NaN, or a
signed infinity.  This mirrors the `Decimal` representation itself
(`Decimal("1234.56")` stores coefficient 123456 and exponent -2,
`Decimal("1e3")` stores coefficient 1 and exponent 3). -/
inductive NumTok where
  | fin (c : ℤ) (e : ℤ)
  | nan (signaling : Bool)
  | inf (neg : Bool)
deriving DecidableEq

/-- Exponent tail `[sign] digits` of a decimal numeric string,
consuming the whole remaining input. -/
def parseExpTail (cs : List Char) : Option ℤ :=
  match cs with
  | '+' :: r => if !r.isEmpty && r.all Char.isDigit then some ((decDigits r : ℤ)) else none
  | '-' :: r => if !r.isEmpty && r.all Char.isDigit then some (-(decDigits r : ℤ)) else none
  | r => if !r.isEmpty && r.all Char.isDigit then some ((decDigits r : ℤ)) else none

/-- The finite branch of the decimal numeric-string grammar after the
optional sign: `digits [. digits] [E [sign] digits]` with at least one
digit in the integer or fractional part (so also `.digits` and
`digits.`), consuming the whole input; returns the coefficient digits'
value and the decimal exponent (the written exponent minus the length
of the fractional part). -/
def parseDecPart (cs : List Char) : Option (ℕ × ℤ) :=
  let sp := listSpan Char.isDigit cs
  match sp.2 with
  | [] => if sp.1.isEmpty then none else some (decDigits sp.1, 0)
  | '.' :: r2 =>
      let fr := listSpan Char.isDigit r2
      if sp.1.isEmpty && fr.1.isEmpty then none
      else
        match fr.2 with
        | [] => some (decDigits sp.1 * 10 ^ fr.1.length + decDigits fr.1, -(fr.1.length : ℤ))
        | e1 :: r3 =>
            if e1 = 'e' || e1 = 'E' then
              match parseExpTail r3 with
              | some ex =>
                  some (decDigits sp.1 * 10 ^ fr.1.length + decDigits fr.1,
                    ex - (fr.1.length : ℤ))
              | none => none
            else none
  | e1 :: r2 =>
      if e1 = 'e' || e1 = 'E' then
        if sp.1.isEmpty then none
        else
          match parseExpTail r2 with
          | some ex => some (decDigits sp.1, ex)
          | none => none
      else none

/-- Case-insensitive character match against a lower-case pattern
character. -/
def ciChar (k c : Char) : Bool :=
  c = k || c = k.toUpper

/-- Case-insensitive whole-list equality against a lower-case
pattern. -/
def ciAll : List Char → List Char → Bool
  | [], [] => true
  | k :: ks, c :: cs => ciChar k c && ciAll ks cs
  | _, _ => false

/-- The `Infinity` / `Inf` keyword (any case). -/
def isInfBody (cs : List Char) : Bool :=
  ciAll "inf".data cs || ciAll "infinity".data cs

/-- `NaN` followed by optional diagnostic digits (any case). -/
def isNanTail (cs : List Char) : Bool :=
  match cs with
  | n1 :: a2 :: n3 :: r =>
      ciChar 'n' n1 && ciChar 'a' a2 && ciChar 'n' n3 && r.all Char.isDigit
  | _ => false

/-- The special branches of the numeric-string grammar after the sign:
infinity, quiet NaN, signaling NaN.  The sign and diagnostic payload of
a NaN affect none of the operations the repository performs on the
result (truthiness, equality, ordering, addition), so they are not
retained. -/
def parseSpecial (cs : List Char) : Option NumTok :=
  if isInfBody cs then some (.inf false)
  else if isNanTail cs then some (.nan false)
  else
    match cs with
    | s1 :: r => if (s1 = 's' || s1 = 'S') && isNanTail r then some (.nan true) else none
    | [] => none

/-- Body of a decimal numeric string after the optional sign: a finite
decimal part or a special value (the two branches accept disjoint
inputs). -/
def parseNumBody (neg : Bool) (cs : List Char) : Option NumTok :=
  match parseDecPart cs with
  | some (n, e) => some (.fin (if neg then -(n : ℤ) else (n : ℤ)) e)
  | none =>
      match parseSpecial cs with
      | some (.inf _) => some (.inf neg)
      | some t => some t
      | none => none

/-- A full decimal numeric string: optional sign, then a finite decimal
part or a special value. -/
def parseNumTok (cs : List Char) : Option NumTok :=
  match cs with
  | c :: r =>
      if c = '-' then parseNumBody true r
      else if c = '+' then parseNumBody false r
      else parseNumBody false (c :: r)
  | [] => parseNumBody false []

/-- Rational value of a coefficient/exponent pair: `c * 10 ^ e`. -/
def decValue (c : ℤ) (e : ℤ) : ℚ :=
  if 0 ≤ e then (((c * 10 ^ e.toNat : ℤ) : ℚ)) else (c : ℚ) / ((10 ^ (-e).toNat : ℕ) : ℚ)

/-- A Python `Decimal` value as the repository can observe it: finite
(an exact rational), NaN (quiet or signaling), or a signed infinity. -/
inductive PyDec where
  | fin (q : ℚ)
  | nan (signaling : Bool)
  | inf (neg : Bool)
deriving DecidableEq

/-- Value of a parsed numeric token. -/
def tokVal : NumTok → PyDec
  | .fin c e => .fin (decValue c e)
  | .nan s => .nan s
  | .inf n => .inf n

/-- The `Decimal(string)` constructor: leading and trailing whitespace
is stripped, then every underscore is removed, and the remainder must
match the decimal numeric-string grammar; the conversion is exact (the
constructor does not apply context rounding).  A failure signals
`InvalidOperation`, modelled as `none`. -/
def pyDecOfString (s : String) : Option PyDec :=
  (parseNumTok ((pyStrip s.data).filter (fun c => c ≠ '_'))).map tokVal

/-- `Decimal` addition as `_parse_card_row` and `_extract_fees` use it:
a signaling NaN operand signals `InvalidOperation` (`none`); a quiet
NaN propagates; opposite infinities signal; an infinity dominates a
finite value; finite values add exactly (context rounding to 28
significant digits is not modelled: it agrees with the exact sum
whenever that sum fits in the precision, and it preserves the sign
facts proved below about arbitrary documents). -/
def pyAdd : PyDec → PyDec → Option PyDec
  | .fin a, .fin b => some (.fin (a + b))
  | .fin _, .nan s => if s then none else some (.nan false)
  | .fin _, .inf b => some (.inf b)
  | .nan s, .fin _ => if s then none else some (.nan false)
  | .nan s, .nan t => if s || t then none else some (.nan false)
  | .nan s, .inf _ => if s then none else some (.nan false)
  | .inf b, .fin _ => some (.inf b)
  | .inf _, .nan s => if s then none else some (.nan false)
  | .inf b1, .inf b2 => if b1 = b2 then some (.inf b1) else none

/-- Total wrapper for `pyAdd` at the call sites where the addition can
be shown never to signal (both operands finite or non-NaN): on the
unreachable signalling case it keeps the left operand, standing for the
state the enclosing `except` handler would preserve. -/
def pyAddSat (a b : PyDec) : PyDec :=
  (pyAdd a b).getD a

/-- `amount / 2` in the combined fees-and-assessments branch: exact
halving of a finite value; division leaves NaN and infinity unchanged
(only finite regex-capture amounts reach this operation). -/
def pyHalf : PyDec → PyDec
  | .fin q => .fin (q / 2)
  | d => d

/-- `Decimal` strict ordering `a > b`: any NaN operand signals
`InvalidOperation` (`none`); infinities compare as expected. -/
def pyGt : PyDec → PyDec → Option Bool
  | .fin a, .fin b => some (decide (b < a))
  | .fin _, .nan _ => none
  | .fin _, .inf n => some n
  | .nan _, _ => none
  | .inf n, .fin _ => some (!n)
  | .inf _, .nan _ => none
  | .inf n1, .inf n2 => some (!n1 && n2)

/-- Python `max(a, b)`: keeps `a` unless `b > a`; the comparison
signals when a NaN is involved. -/
def pyMax (a b : PyDec) : Option PyDec :=
  (pyGt b a).map (fun t => if t then b else a)

/-- Total wrapper for `pyMax` at the call site where neither operand
can be a NaN (shown by the lemmas below); the unreachable signalling
case keeps the left operand. -/
def pyMaxT (a b : PyDec) : PyDec :=
  (pyMax a b).getD a

/-- The test `net_sales != Decimal('0.00')` of `_parse_card_row`:
equality with a signaling NaN signals `InvalidOperation` (`none`); a
quiet NaN and an infinity compare unequal to zero without
signalling. -/
def pyNeZero : PyDec → Option Bool
  | .fin q => some (decide (q ≠ 0))
  | .nan s => if s then none else some true
  | .inf _ => some true

/-- Python truthiness `bool(Decimal)`: zero is falsy; every non-zero,
NaN or infinite value is truthy (truthiness never signals, even for a
signaling NaN). -/
def pyBool : PyDec → Bool
  | .fin q => decide (q ≠ 0)
  | _ => true

/-- The comparison `v == Decimal('0.00')` at the two fallback triggers.
For a signaling NaN the comparison would signal; at both call sites the
compared value was produced by the text-line layer, which only stores
finite regex-capture amounts, so that case is unreachable (it is mapped
to `false` here). -/
def pyEqZeroB : PyDec → Bool
  | .fin q => decide (q = 0)
  | _ => false

/-- Finiteness test (constructor test only — never forces the rational
payload). -/
def pyIsFin : PyDec → Bool
  | .fin _ => true
  | _ => false

/-- The rational payload of a finite value (0 on specials; only applied
under a `pyIsFin` hypothesis). -/
def pyFinVal : PyDec → ℚ
  | .fin q => q
  | _ => 0

/-- Non-negativity of a `Decimal` value: a non-negative finite value or
`+Infinity`; NaN values are not non-negative. -/
def pyDecNonneg : PyDec → Prop
  | .fin q => 0 ≤ q
  | .nan _ => False
  | .inf n => n = false

instance (d : PyDec) : Decidable (pyDecNonneg d) :=
  match d with
  | .fin q => inferInstanceAs (Decidable (0 ≤ q))
  | .nan _ => inferInstanceAs (Decidable False)
  | .inf n => inferInstanceAs (Decidable (n = false))

/-- A Python value reaching `_safe_decimal` / `_safe_int`: `None`, a
string, or a number (an int or `Decimal`, whose `str` round-trips
exactly; finite in the repository). -/
inductive PyVal where
  | none
  | str (s : String)
  | num (q : ℚ)
deriving DecidableEq

/-- The symbol stripping of `BaseExtractor._safe_decimal`:
`value.replace('$', '').replace(',', '').replace('(', '-').replace(')', '').strip()`.
All four patterns are single characters, so each `replace` is a
character-wise filter or map. -/
def stripCurrency (s : String) : String :=
  let cs := s.data.filter (fun c => c ≠ '$')
  let cs := cs.filter (fun c => c ≠ ',')
  let cs := cs.map (fun c => if c = '(' then '-' else c)
  let cs := cs.filter (fun c => c ≠ ')')
  String.mk (pyStrip cs)

/-- `BaseExtractor._safe_decimal`: `None` gives the default, strings
are symbol-stripped and handed to the `Decimal` constructor (a
conversion failure is caught and gives the default; a NaN or infinity
string converts successfully and is returned as such), numbers convert
exactly via `Decimal(str(value))`. -/
def safe_decimal (v : PyVal) (d : PyDec) : PyDec :=
  match v with
  | .none => d
  | .str s =>
      match pyDecOfString (stripCurrency s) with
      | some x => x
      | Option.none => d
  | .num q => .fin q

/-- Digit run with single underscores allowed between digits (the PEP
515 placement rule `int()` enforces), extending an accumulator. -/
def intDigitsUnder : ℕ → List Char → Option ℕ
  | acc, [] => some acc
  | acc, '_' :: rest =>
      match rest with
      | c :: t => if c.isDigit then intDigitsUnder (10 * acc + (c.toNat - 48)) t else none
      | [] => none
  | acc, c :: t => if c.isDigit then intDigitsUnder (10 * acc + (c.toNat - 48)) t else none

/-- Unsigned part of `int(string)`: a digit followed by digits with
well-placed underscores. -/
def parseIntDigits (cs : List Char) : Option ℕ :=
  match cs with
  | c :: t => if c.isDigit then intDigitsUnder (c.toNat - 48) t else none
  | [] => none

/-- Python `int(string)`: surrounding C-level whitespace, an optional
sign, then digits with single underscores between them. -/
def parsePyInt (s : String) : Option ℤ :=
  match stripBy intSpace s.data with
  | '-' :: rest => (parseIntDigits rest).map (fun n => -(n : ℤ))
  | '+' :: rest => (parseIntDigits rest).map (fun n => (n : ℤ))
  | cs => (parseIntDigits cs).map (fun n => (n : ℤ))

/-- `BaseExtractor._safe_int`: `None` gives the default, strings have
commas removed and are stripped (`str.strip()`) then parsed by `int()`
(failure is caught and gives the default), numbers truncate (only
integral numbers reach it in the repository). -/
def safe_int (v : PyVal) (d : ℤ) : ℤ :=
  match v with
  | .none => d
  | .str s =>
      match parsePyInt (String.mk (pyStrip (s.data.filter (fun c => c ≠ ',')))) with
      | some n => n
      | Option.none => d
  | .num q => q.num.tdiv q.den

/-- Characters matched by the regex class `[\d,]`. -/
def digitComma (c : Char) : Bool :=
  c.isDigit || c = ','

/-- Characters matched by the regex class `[*\s]`. -/
def starSpace (c : Char) : Bool :=
  c = '*' || pySpace c

/-- Matcher for the amount group `([\d,]+\.\d{2})` anchored at the head
of the input; returns the matched text and the remaining input.
`[\d,]+` is greedy and disjoint from `.`, so the backtracking regex and
this deterministic matcher agree. -/
def matchAmountAt (cs : List Char) : Option (String × List Char) :=
  let sp := listSpan digitComma cs
  if sp.1.isEmpty then none
  else
    match sp.2 with
    | '.' :: a :: b :: rest =>
        if a.isDigit && b.isDigit then some (String.mk (sp.1 ++ ['.', a, b]), rest)
        else none
    | _ => none

/-- The `\s?` regex piece: drop one leading whitespace character if
present (greedy, and backtracking cannot help because the amount class
contains no whitespace). -/
def skipOneSpace (r : List Char) : List Char :=
  match r with
  | c2 :: t => if pySpace c2 then t else c2 :: t
  | [] => []

/-- The `\$?` regex piece: drop one leading dollar sign if present
(greedy, and backtracking cannot help because the amount class does not
contain `$`). -/
def skipDollar (r : List Char) : List Char :=
  match r with
  | '$' :: t => t
  | r2 => r2

/-- Matcher for `\$\s?([\d,]+\.\d{2})` anchored at the head of the
input (the first pattern of `_extract_amount_from_line`). -/
def matchDollarAmountAt (cs : List Char) : Option String :=
  match cs with
  | c0 :: r =>
      if c0 = '$' then
        match matchAmountAt (skipOneSpace r) with
        | some p => some p.1
        | none => none
      else none
  | [] => none

/-- Model of `re.search`: try the anchored matcher at every position,
left to right (including the final empty position). -/
def searchFirst {α : Type} (m : List Char → Option α) : List Char → Option α
  | [] => m []
  | c :: rest =>
      match m (c :: rest) with
      | some x => some x
      | none => searchFirst m rest

/-- Model of `re.findall` for `([\d,]+\.\d{2})`: non-overlapping
matches scanning left to right.  Each successful match consumes at
least four characters, so `fuel = length` always suffices. -/
def findAllAux : ℕ → List Char → List String
  | 0, _ => []
  | _ + 1, [] => []
  | fuel + 1, c :: rest =>
      match matchAmountAt (c :: rest) with
      | some (s, r) => s :: findAllAux fuel r
      | none => findAllAux fuel rest

/-- All `([\d,]+\.\d{2})` matches of a line, in order. -/
def findAllAmounts (cs : List Char) : List String :=
  findAllAux cs.length cs

/-- Case-insensitive literal match at the head of the input (regex
literals under `re.IGNORECASE`); returns the remaining input. -/
def ciStrip : List Char → List Char → Option (List Char)
  | [], cs => some cs
  | _ :: _, [] => none
  | k :: ks, c :: cs => if k.toUpper = c.toUpper then ciStrip ks cs else none

/-- Matcher for the tail `[*\s]+(\d+)[*\s]+\$?\s?([\d,]+\.\d{2})` of
the card-volume and totals patterns, anchored after the keyword;
returns the two capture groups (count digits, amount text).  All
adjacent pieces use disjoint character classes, so the deterministic
greedy reading agrees with the backtracking regex. -/
def matchCountAmountAfter (cs : List Char) : Option (String × String) :=
  let s1 := listSpan starSpace cs
  if s1.1.isEmpty then none
  else
    let s2 := listSpan Char.isDigit s1.2
    if s2.1.isEmpty then none
    else
      let s3 := listSpan starSpace s2.2
      if s3.1.isEmpty then none
      else
        match matchAmountAt (skipOneSpace (skipDollar s3.2)) with
        | some p => some (String.mk s2.1, p.1)
        | none => none

/-- Anchored matcher for `(?:KW1|KW2|...)[*\s]+(\d+)[*\s]+\$?\s?([\d,]+\.\d{2})`
with the keyword alternatives tried left to right as the regex engine
does. -/
def matchCardAt : List String → List Char → Option (String × String)
  | [], _ => none
  | kw :: kws, cs =>
      match ciStrip kw.data cs with
      | some rest =>
          match matchCountAmountAfter rest with
          | some r => some r
          | none => matchCardAt kws cs
      | none => matchCardAt kws cs

/-- `re.search` of a keyword/count/amount pattern over a line, as used
for card volumes (`VISA[*\s]+(\d+)[*\s]+\$?\s?([\d,]+\.\d{2})` etc.)
and for the totals line (`TOTALS?...`, expressed as alternatives
`["TOTALS", "TOTAL"]`).  Returns the raw capture groups. -/
def searchCard (kws : List String) (line : String) : Option (String × String) :=
  searchFirst (matchCardAt kws) line.data

/-- One page of an opened document: `page.extract_text()` (which may be
`None`) and `page.extract_tables()` (tables of rows of cells, where a
cell may be `None`). -/
structure Page where
  text : Option String
  tables : List (List (List (Option String)))
deriving DecidableEq

/-- The rows visited by the nested loops
`for page in pdf.pages: for table in page.extract_tables(): for row in table:`,
in visiting order (empty tables and empty rows contribute nothing and
are guarded at each consumer exactly as in the source). -/
def tableRows (pages : List Page) : List (List (Option String)) :=
  ((pages.map Page.tables).flatten).flatten

/-- Python truthiness of a table cell (`if row[i]:`): not `None` and
not the empty string. -/
def cellTruthy (c : Option String) : Bool :=
  match c with
  | some s => s ≠ ""
  | none => false

/-- A table cell as the value passed to `_safe_decimal` /
`_safe_int`. -/
def cellPy (c : Option String) : PyVal :=
  match c with
  | some s => .str s
  | none => .none

/-- Per-network entry of the `card_volumes` dict:
`{'volume': Decimal, 'count': int}`. -/
structure CardVol where
  volume : PyDec
  count : ℤ
deriving DecidableEq

/-- The five card networks; the `card_volumes` dict of
`ChaseExtractor._extract_card_volumes` always holds exactly these five
keys. -/
inductive Network where
  | visa
  | mastercard
  | amex
  | discover
  | interac
deriving DecidableEq

/-- The `card_volumes` dict (fixed five keys). -/
structure CardVolumes where
  visa : CardVol
  mastercard : CardVol
  amex : CardVol
  discover : CardVol
  interac : CardVol
deriving DecidableEq

/-- Dict lookup `card_volumes[k]`. -/
def cvGet (cv : CardVolumes) (n : Network) : CardVol :=
  match n with
  | .visa => cv.visa
  | .mastercard => cv.mastercard
  | .amex => cv.amex
  | .discover => cv.discover
  | .interac => cv.interac

/-- Dict entry replacement `card_volumes[k] = v`. -/
def cvSet (cv : CardVolumes) (n : Network) (v : CardVol) : CardVolumes :=
  match n with
  | .visa => { cv with visa := v }
  | .mastercard => { cv with mastercard := v }
  | .amex => { cv with amex := v }
  | .discover => { cv with discover := v }
  | .interac => { cv with interac := v }

/-- The initial all-zero `card_volumes` dict literal. -/
def initCardVolumes : CardVolumes :=
  ⟨⟨.fin 0, 0⟩, ⟨.fin 0, 0⟩, ⟨.fin 0, 0⟩, ⟨.fin 0, 0⟩, ⟨.fin 0, 0⟩⟩

/-- The `if/elif` keyword gate plus regex search of the text-line layer
of `ChaseExtractor._extract_card_volumes`: which network (if any) a
line updates, together with the two raw capture groups.  A line whose
gate fires but whose regex fails updates nothing (and no later branch
is tried), exactly as in the source. -/
def lineMatch (line : String) : Option (Network × String × String) :=
  let u := pyUpper line
  if strContains u "VISA" && !strContains u "MASTERCARD" then
    (searchCard ["VISA"] line).map (fun p => (.visa, p))
  else if strContains u "MASTERCARD" then
    (searchCard ["MASTERCARD"] line).map (fun p => (.mastercard, p))
  else if strContains u "AMERICAN EXPRESS" || (strContains u "AMEX" && !strContains u "EXPRESS") then
    (searchCard ["AMERICAN EXPRESS", "AMEX"] line).map (fun p => (.amex, p))
  else if strContains u "DISCOVER" then
    (searchCard ["DISCOVER"] line).map (fun p => (.discover, p))
  else if strContains u "INTERAC" then
    (searchCard ["INTERAC"] line).map (fun p => (.interac, p))
  else none

/-- One line of the text-line layer: on a match, the network's count
and volume are assigned (overwriting any earlier value); the regex
captures are digit strings, so both conversions succeed and yield
finite values. -/
def cardLineStep (cv : CardVolumes) (line : String) : CardVolumes :=
  match lineMatch line with
  | some (n, c, a) => cvSet cv n ⟨safe_decimal (.str a) (.fin 0), safe_int (.str c) 0⟩
  | none => cv

/-- The text-line layer of `_extract_card_volumes` over
`full_text.split('\n')`. -/
def extract_card_volumes_lines (fullText : String) : CardVolumes :=
  (pySplitLines fullText).foldl cardLineStep initCardVolumes

/-- The net-sales override of `_parse_card_row`: the volume is replaced
when `net_sales != Decimal('0.00')` evaluates true; a `False` result
skips the assignment, and a signalling comparison (signaling NaN) is
caught by the handler, which also leaves the entry unchanged. -/
def cardRowNetApply (net : PyDec) (cd : CardVol) : CardVol :=
  match pyNeZero net with
  | some true => { cd with volume := net }
  | _ => cd

/-- Column-6 clause of `_parse_card_row` (`if len(row) > 6 and
row[6]:`). -/
def cardRowNet (row : List (Option String)) (cd : CardVol) : CardVol :=
  if row.length > 6 && cellTruthy (row.getD 6 Option.none) then
    cardRowNetApply (safe_decimal (cellPy (row.getD 6 Option.none)) (.fin 0)) cd
  else cd

/-- Column-1 count accumulation of `_parse_card_row` followed by the
net-sales clause (integer addition never signals). -/
def cardRowCountNet (row : List (Option String)) (cd : CardVol) : CardVol :=
  cardRowNet row
    (if row.length > 1 && cellTruthy (row.getD 1 Option.none) then
      { cd with count := cd.count + safe_int (cellPy (row.getD 1 Option.none)) 0 }
    else cd)

/-- `ChaseExtractor._parse_card_row`: gross sales from column 2 are
accumulated into the volume (`volume += sales`); if that addition
signals (a signaling-NaN cell), the row's `except` handler fires and
the remaining statements never run; otherwise the column-1 count is
accumulated and a truthy column 6 may replace the volume with the net
figure. -/
def parse_card_row (row : List (Option String)) (cd : CardVol) : CardVol :=
  if row.length > 2 && cellTruthy (row.getD 2 Option.none) then
    match pyAdd cd.volume (safe_decimal (cellPy (row.getD 2 Option.none)) (.fin 0)) with
    | some v => cardRowCountNet row { cd with volume := v }
    | none => cd
  else cardRowCountNet row cd

/-- The `if/elif` chain classifying a table row's first cell
(`str(row[0]).upper().strip()`) in the tabular fallback of
`_extract_card_volumes`; empty rows and falsy first cells are
skipped. -/
def cardRowNetwork (row : List (Option String)) : Option Network :=
  if row.isEmpty then none
  else
    let c0 := row.getD 0 Option.none
    if cellTruthy c0 then
      let ct := String.mk (pyStrip (pyUpper (c0.getD "")).data)
      if strContains ct "VISA" && !strContains ct "MASTERCARD" then some .visa
      else if strContains ct "MASTERCARD" then some .mastercard
      else if strContains ct "AMERICAN EXPRESS" || strContains ct "AMEX" then some .amex
      else if strContains ct "DISCOVER" then some .discover
      else if strContains ct "INTERAC" then some .interac
      else none
    else none

/-- One row of the tabular fallback: the classified network's entry is
updated in place by `_parse_card_row`. -/
def cardTableStep (cv : CardVolumes) (row : List (Option String)) : CardVolumes :=
  match cardRowNetwork row with
  | some n => cvSet cv n (parse_card_row row (cvGet cv n))
  | none => cv

/-- The fallback trigger
`all(v['volume'] == Decimal('0.00') for v in card_volumes.values())`
(the compared volumes come from the text-line layer, hence are finite
regex-capture values, so the comparison cannot signal). -/
def allVolumesZero (cv : CardVolumes) : Bool :=
  pyEqZeroB cv.visa.volume && pyEqZeroB cv.mastercard.volume &&
    pyEqZeroB cv.amex.volume && pyEqZeroB cv.discover.volume && pyEqZeroB cv.interac.volume

/-- `ChaseExtractor._extract_card_volumes`: the text-line layer, then,
only if it produced all-zero volumes, the tabular fallback over every
page's tables. -/
def extract_card_volumes (fullText : String) (pages : List Page) : CardVolumes :=
  if allVolumesZero (extract_card_volumes_lines fullText) then
    (tableRows pages).foldl cardTableStep (extract_card_volumes_lines fullText)
  else extract_card_volumes_lines fullText

/-- The `fees` dict of `ChaseExtractor._extract_fees` (fixed five
keys). -/
structure Fees where
  interchange_fees : PyDec
  assessment_fees : PyDec
  processing_fees : PyDec
  monthly_fees : PyDec
  other_fees : PyDec
deriving DecidableEq

/-- The initial all-zero `fees` dict literal. -/
def initFees : Fees := ⟨.fin 0, .fin 0, .fin 0, .fin 0, .fin 0⟩

/-- `ChaseExtractor._extract_amount_from_line`: first a
`\$\s?([\d,]+\.\d{2})` search; failing that, the last
`([\d,]+\.\d{2})` match of the line; `None` if neither exists.  The
captures are unsigned plain decimals, so the conversion always yields
a finite non-negative value. -/
def extract_amount_from_line (line : String) : Option PyDec :=
  match searchFirst matchDollarAmountAt line.data with
  | some s => some (safe_decimal (.str s) (.fin 0))
  | none =>
      match (findAllAmounts line.data).getLast? with
      | some s => some (safe_decimal (.str s) (.fin 0))
      | none => none

/-- `ChaseExtractor._extract_amount_from_row`: scan the cells from the
last backwards; a truthy cell is converted by `_safe_decimal` and
returned when `amount > 0` — a comparison that signals on a NaN cell,
upon which the bare `except` returns `None` for the whole row; a
non-positive amount moves on to the next cell. -/
def extract_amount_from_row_aux : List (Option String) → Option PyDec
  | [] => none
  | c :: rest =>
      if cellTruthy c then
        match pyGt (safe_decimal (cellPy c) (.fin 0)) (.fin 0) with
        | some true => some (safe_decimal (cellPy c) (.fin 0))
        | some false => extract_amount_from_row_aux rest
        | none => none
      else extract_amount_from_row_aux rest

/-- `ChaseExtractor._extract_amount_from_row` (`for cell in
reversed(row)`). -/
def extract_amount_from_row (row : List (Option String)) : Option PyDec :=
  extract_amount_from_row_aux row.reverse

/-- One line of the fee text scan of `ChaseExtractor._extract_fees`:
the `if/elif` phrase chain over the upper-cased line; a truthy
extracted amount is accumulated into the matched category (the
combined "FEES AND ASSESSMENTS TOTAL" line is split evenly between
assessment and processing).  Line amounts are finite, so the additions
never signal (`pyAddSat`). -/
def feeLineStep (f : Fees) (line : String) : Fees :=
  let u := pyUpper line
  if strContains u "INTERCHANGE FEES TOTAL" then
    match extract_amount_from_line line with
    | some a =>
        if pyBool a then { f with interchange_fees := pyAddSat f.interchange_fees a } else f
    | none => f
  else if strContains u "ASSESSMENT FEES" && !strContains u "TOTAL" then
    match extract_amount_from_line line with
    | some a =>
        if pyBool a then { f with assessment_fees := pyAddSat f.assessment_fees a } else f
    | none => f
  else if strContains u "FEES AND ASSESSMENTS TOTAL" then
    match extract_amount_from_line line with
    | some a =>
        if pyBool a then
          { f with assessment_fees := pyAddSat f.assessment_fees (pyHalf a),
                   processing_fees := pyAddSat f.processing_fees (pyHalf a) }
        else f
    | none => f
  else if strContains u "MONTHLY ADMIN FEE" || strContains u "MONTHLY FEE" then
    match extract_amount_from_line line with
    | some a =>
        if pyBool a then { f with monthly_fees := pyAddSat f.monthly_fees a } else f
    | none => f
  else if strContains u "OTHER CHARGES" || strContains u "TOTAL OTHER CHARGES" then
    match extract_amount_from_line line with
    | some a =>
        if pyBool a then { f with other_fees := pyAddSat f.other_fees a } else f
    | none => f
  else f

/-- The text-line layer of `_extract_fees`. -/
def extract_fees_lines (fullText : String) : Fees :=
  (pySplitLines fullText).foldl feeLineStep initFees

/-- Row text of the tabular fee scan:
`' '.join(str(cell) for cell in row if cell).upper()`. -/
def rowText (row : List (Option String)) : String :=
  pyUpper (" ".intercalate ((row.filterMap id).filter (fun s => s ≠ "")))

/-- One row of the tabular fee scan of `_extract_fees`: rows shorter
than two cells are skipped; only the phrase `INTERCHANGE FEES TOTAL`
is looked for, and a truthy extracted amount replaces the interchange
total by Python `max` (the extracted amount compares strictly positive
and so is never a NaN, and the accumulated total never becomes one, so
the comparison inside `max` cannot signal — `pyMaxT`). -/
def feeTableStep (f : Fees) (row : List (Option String)) : Fees :=
  if row.length < 2 then f
  else if strContains (rowText row) "INTERCHANGE FEES TOTAL" then
    match extract_amount_from_row row with
    | some a =>
        if pyBool a then { f with interchange_fees := pyMaxT f.interchange_fees a } else f
    | none => f
  else f

/-- `ChaseExtractor._extract_fees`: the text-line scan, then the
tabular scan over every page's tables. -/
def extract_fees (fullText : String) (pages : List Page) : Fees :=
  (tableRows pages).foldl feeTableStep (extract_fees_lines fullText)

/-- The `totals` dict of `ChaseExtractor._extract_totals`. -/
structure Totals where
  total_volume : PyDec
  transaction_count : ℤ
  total_fees : PyDec
deriving DecidableEq

/-- First clause of the totals text scan: the `TOTALS?` count/amount
pattern, searched whenever the upper-cased line contains `TOTALS` or
`TOTAL`. -/
def totalsVolumeLine (t : Totals) (line : String) : Totals :=
  if strContains (pyUpper line) "TOTALS" || strContains (pyUpper line) "TOTAL" then
    match searchCard ["TOTALS", "TOTAL"] line with
    | some (c, a) =>
        { t with transaction_count := safe_int (.str c) 0,
                 total_volume := safe_decimal (.str a) (.fin 0) }
    | none => t
  else t

/-- Second clause of the totals text scan: a `TOTAL AMOUNT CHARGED`
line sets the fee total from the line's truthy amount. -/
def totalsFeesLine (t : Totals) (line : String) : Totals :=
  if strContains (pyUpper line) "TOTAL AMOUNT CHARGED" then
    match extract_amount_from_line line with
    | some a => if pyBool a then { t with total_fees := a } else t
    | none => t
  else t

/-- One line of the totals text scan: the two clauses run in sequence
(they are separate `if` statements in the source, not an `elif`). -/
def totalsLineStep (t : Totals) (line : String) : Totals :=
  totalsFeesLine (totalsVolumeLine t line) line

/-- First clause of the tabular totals fallback: a truthy first cell
containing `TOTALS` supplies net sales from column 6 and the item
count from column 5. -/
def totalsRowNet (t : Totals) (row : List (Option String)) : Totals :=
  if cellTruthy (row.getD 0 Option.none) &&
      strContains (pyUpper ((row.getD 0 Option.none).getD "")) "TOTALS" then
    if row.length > 5 && cellTruthy (row.getD 5 Option.none) then
      { (if row.length > 6 && cellTruthy (row.getD 6 Option.none) then
          { t with total_volume := safe_decimal (cellPy (row.getD 6 Option.none)) (.fin 0) }
        else t) with
        transaction_count := safe_int (cellPy (row.getD 5 Option.none)) 0 }
    else
      if row.length > 6 && cellTruthy (row.getD 6 Option.none) then
        { t with total_volume := safe_decimal (cellPy (row.getD 6 Option.none)) (.fin 0) }
      else t
  else t

/-- Second clause of the tabular totals fallback: a first cell
containing `TOTAL AMOUNT CHARGED` supplies the fee total from the last
cell. -/
def totalsRowFees (t : Totals) (row : List (Option String)) : Totals :=
  if cellTruthy (row.getD 0 Option.none) &&
      strContains (pyUpper ((row.getD 0 Option.none).getD "")) "TOTAL AMOUNT CHARGED" then
    if row.length > 1 && cellTruthy (row.getD (row.length - 1) Option.none) then
      { t with total_fees := safe_decimal (cellPy (row.getD (row.length - 1) Option.none)) (.fin 0) }
    else t
  else t

/-- One row of the tabular totals fallback: empty rows are skipped and
the two clauses run in sequence (two separate `if` statements in the
source). -/
def totalsTableStep (t : Totals) (row : List (Option String)) : Totals :=
  if row.isEmpty then t
  else totalsRowFees (totalsRowNet t row) row

/-- `ChaseExtractor._extract_totals`: the text scan, then, only if the
volume total still compares equal to zero, the tabular fallback (the
compared value comes from the text scan, hence is finite, so the
comparison cannot signal). -/
def extract_totals (fullText : String) (pages : List Page) : Totals :=
  if pyEqZeroB ((pySplitLines fullText).foldl totalsLineStep ⟨.fin 0, 0, .fin 0⟩).total_volume then
    (tableRows pages).foldl totalsTableStep
      ((pySplitLines fullText).foldl totalsLineStep ⟨.fin 0, 0, .fin 0⟩)
  else (pySplitLines fullText).foldl totalsLineStep ⟨.fin 0, 0, .fin 0⟩

/-- Behaviour of the external text-recognition call
`OCRHelper.extract_text_from_pdf`: it either returns a string or
raises. -/
inductive OcrOutcome where
  | ok (text : String)
  | failure (msg : String)
deriving DecidableEq

/-- The external text-recognition collaborator as `_extract_full_text`
observes it: whether `check_tesseract_installed()` reports it
available, and what the extraction call does when invoked. -/
structure OcrService where
  installed : Bool
  outcome : OcrOutcome
deriving DecidableEq

/-- The primary in-process text layer: per-page `page.extract_text()`
concatenated over truthy pages, joined by newlines. -/
def primaryText (pages : List Page) : String :=
  "\n".intercalate ((pages.filterMap Page.text).filter (fun s => s ≠ ""))

/-- `BaseExtractor._extract_full_text`, returning the acquired text and
the diagnostics appended to `self.errors`.  With `force_ocr` set and
the service available, the service is tried first and wins outright
when it yields more than 100 characters; a service exception is caught
and recorded.  The primary text is then collected; only when it is
short (stripped length < 100) and `force_ocr` is false is the service
consulted again, a failure or unavailability being recorded as a
diagnostic.  The function is total: no path raises. -/
def extract_full_text (force_ocr : Bool) (svc : OcrService) (pages : List Page) :
    String × List String :=
  let step1 : Option (String × List String) × List String :=
    if force_ocr && svc.installed then
      match svc.outcome with
      | .ok t =>
          if t.length > 100 then (some (t, ["Used LLM-based extraction (force_ocr=True)"]), [])
          else (none, [])
      | .failure m => (none, ["LLM extraction failed: " ++ m ++ ", using pdfplumber"])
    else (none, [])
  match step1 with
  | (some r, _) => r
  | (none, errs1) =>
      let combined := primaryText pages
      if (String.mk (pyStrip combined.data)).length < 100 && !force_ocr then
        if svc.installed then
          match svc.outcome with
          | .ok t =>
              if t.length > combined.length then
                (t, errs1 ++ ["Used alternative extraction fallback"])
              else (combined, errs1)
          | .failure m => (combined, errs1 ++ ["Alternative extraction failed: " ++ m])
        else (combined, errs1 ++ ["Limited text detected but alternative extraction not available"])
      else (combined, errs1)

/-- The slice of `self.extracted_data` read by
`BaseExtractor._calculate_confidence`.  The three dict-valued entries
are `Option`s: `none` models a missing key (whose `.get` default `{}`
or `{}`-like value is falsy), while `some` carries the dict the
extractor stores — those dicts always hold all five (respectively
three) keys, so a present dict is always truthy. -/
structure ExtractedData where
  merchant_name : String
  period_start : Option String
  period_end : Option String
  card_volumes : Option CardVolumes
  fees : Option Fees
  totals : Option Totals
deriving DecidableEq

/-- Python truthiness of an optional string field (`None` and `''` are
falsy). -/
def optTruthy (o : Option String) : Bool :=
  match o with
  | some s => s ≠ ""
  | none => false

/-- `BaseExtractor._calculate_confidence`: 20 for a truthy merchant
name; 20 for both period bounds truthy, 10 for exactly one; 30 when
the `card_volumes` dict is truthy (i.e. present — its five keys make
it non-empty regardless of the stored amounts); 20 when the `fees`
dict is truthy (likewise); 10 when `totals['total_volume']` is truthy
(a non-zero, NaN or infinite Decimal — truthiness never signals);
capped at 100. -/
def calculate_confidence (d : ExtractedData) : ℚ :=
  let s1 : ℚ := if d.merchant_name ≠ "" then 20 else 0
  let s2 : ℚ :=
    if optTruthy d.period_start && optTruthy d.period_end then 20
    else if optTruthy d.period_start || optTruthy d.period_end then 10
    else 0
  let s3 : ℚ := if d.card_volumes.isSome then 30 else 0
  let s4 : ℚ := if d.fees.isSome then 20 else 0
  let s5 : ℚ :=
    match d.totals with
    | some t => if pyBool t.total_volume then 10 else 0
    | none => 0
  min (s1 + s2 + s3 + s4 + s5) 100

/-- The processor brands the `if/elif` chain of
`ExtractorFactory.create_extractor` can recognise from the first
page's lower-cased text. -/
inductive DetectedProcessor where
  | chase
  | clover
  | square
  | stripeKw
  | moneris
  | unknown
deriving DecidableEq

/-- The keyword detection chain of `ExtractorFactory.create_extractor`
over the lower-cased first-page text. -/
def detect_processor_keyword (firstPageText : String) : DetectedProcessor :=
  let t := pyLower firstPageText
  if strContains t "chase paymentech" || strContains t "j.p.morgan" then .chase
  else if strContains t "clover" then .clover
  else if strContains t "square" then .square
  else if strContains t "stripe" then .stripeKw
  else if strContains t "moneris" then .moneris
  else .unknown

/-- The extractor classes the factory can instantiate (only the Chase
extractor exists). -/
inductive Extractor where
  | chase
deriving DecidableEq

/-- `ExtractorFactory.create_extractor` on a readable document: the
Chase branch returns a `ChaseExtractor`; the clover/square/stripe/
moneris branches log the recognised brand but return `None`
(not yet implemented); the final branch logs the first 200 characters
of the text (to the logger only) and returns `None`. -/
def create_extractor (firstPageText : String) : Option Extractor :=
  match detect_processor_keyword firstPageText with
  | .chase => some .chase
  | _ => none

/-- The fixed reason `ExtractorFactory.extract_from_file` stores when
no extractor was created. -/
def unsupportedMsg : String :=
  "Could not detect processor type or processor not supported"

/-- The slice of the dict returned by
`ExtractorFactory.extract_from_file` that the orchestrator reads. -/
structure TopData where
  success : Bool
  error : Option String
  extraction_confidence : ℚ
deriving DecidableEq

/-- `ExtractorFactory.extract_from_file`: no extractor gives the fixed
unsupported-error dict with confidence 0; otherwise the (Chase)
extraction result — abstracted here as a parameter, settled by the
extractor definitions above — is returned with `success = True`. -/
def extract_from_file (firstPageText : String) (chaseData : TopData) : TopData :=
  match create_extractor firstPageText with
  | some _ => { chaseData with success := true }
  | none => { success := false, error := some unsupportedMsg, extraction_confidence := 0 }

/-- The fields of a `MerchantStatement` record that
`StatementProcessingService.process_uploaded_statement` drives. -/
structure StatementRecord where
  status : String
  extraction_notes : String
  extraction_confidence : ℚ
  requires_review : Bool
deriving DecidableEq

/-- `StatementProcessingService.process_uploaded_statement`: a missing
file fails the record outright; otherwise the record is set PROCESSING
and the factory is consulted — an unsuccessful extraction marks the
record FAILED with the extraction error and confidence 0 and returns
`False`; a successful one stores the extracted metadata, sets
`requires_review` to `confidence < 80` and marks the record COMPLETED,
returning `True`. -/
def process_uploaded_statement (hasFile : Bool) (firstPageText : String)
    (chaseData : TopData) (rec : StatementRecord) : Bool × StatementRecord :=
  if !hasFile then
    (false, { rec with status := "FAILED", extraction_notes := "No file attached to statement" })
  else
    let rec1 := { rec with status := "PROCESSING" }
    let d := extract_from_file firstPageText chaseData
    if !d.success then
      (false, { rec1 with status := "FAILED",
                          extraction_notes := d.error.getD "Unknown extraction error",
                          extraction_confidence := 0 })
    else
      (true, { rec1 with status := "COMPLETED",
                         extraction_confidence := d.extraction_confidence,
                         requires_review := d.extraction_confidence < 80 })

/-- The line-layer update event for one fixed network: the capture
groups of `lineMatch` when the line's branch is that network. -/
def lineMatchFor (n : Network) (line : String) : Option (String × String) :=
  match lineMatch line with
  | some (m, p) => if m = n then some p else none
  | Option.none => none

/-- All characters of a cell are ASCII.  The character-level model of
the numeric conversions agrees with Python exactly on ASCII cells;
non-ASCII decimal digits (which Python's conversions accept) are
outside the modeled domain, so hypotheses about what a cell parses to
carry this condition. -/
def cellAscii (c : Option String) : Bool :=
  match c with
  | some s => s.data.all (fun ch => ch.toNat < 128)
  | none => true

/-- The column-6 value `_parse_card_row` would consider as net
sales. -/
def netCell (row : List (Option String)) : PyDec :=
  safe_decimal (cellPy (row.getD 6 Option.none)) (.fin 0)

/-- Gross-sales contribution of one table row in `_parse_card_row`
(the finite value of column 2 when present and truthy, else
nothing). -/
def grossContrib (row : List (Option String)) : ℚ :=
  if row.length > 2 && cellTruthy (row.getD 2 Option.none) then
    pyFinVal (safe_decimal (cellPy (row.getD 2 Option.none)) (.fin 0))
  else 0

/-- Count contribution of one table row in `_parse_card_row` (column 1
when present and truthy, else nothing). -/
def countContrib (row : List (Option String)) : ℤ :=
  if row.length > 1 && cellTruthy (row.getD 1 Option.none) then
    safe_int (cellPy (row.getD 1 Option.none)) 0
  else 0

/-- A row carries an effective net-sales override: column 6 is present
and truthy and the test `net_sales != Decimal('0.00')` evaluates to
`True` (a signalling comparison, mapped to the default here, leaves
the volume in place just as the handler does). -/
def rowOverrideB (row : List (Option String)) : Bool :=
  (row.length > 6 && cellTruthy (row.getD 6 Option.none)) &&
    (pyNeZero (netCell row)).getD false

/-- The numeric cells `_parse_card_row` reads are ASCII and convert to
finite values (columns 1, 2 and 6).  The finiteness of column 2 rules
out the signalling addition (and NaN/infinity propagation), that of
column 6 rules out the signalling comparison; the ASCII condition
keeps the modeled conversions in agreement with Python on every
covered cell. -/
def rowFinOK (row : List (Option String)) : Prop :=
  cellAscii (row.getD 1 Option.none) = true ∧
  cellAscii (row.getD 2 Option.none) = true ∧
  cellAscii (row.getD 6 Option.none) = true ∧
  ((row.length > 2 && cellTruthy (row.getD 2 Option.none)) = true →
    pyIsFin (safe_decimal (cellPy (row.getD 2 Option.none)) (.fin 0)) = true) ∧
  ((row.length > 6 && cellTruthy (row.getD 6 Option.none)) = true →
    pyIsFin (netCell row) = true)

instance (row : List (Option String)) : Decidable (rowFinOK row) :=
  inferInstanceAs (Decidable (_ ∧ _ ∧ _ ∧ _ ∧ _))

/-- A table cell is ASCII and converts to a non-negative finite
value. -/
def cellNonnegOK (c : Option String) : Prop :=
  cellAscii c = true ∧ pyIsFin (safe_decimal (cellPy c) (.fin 0)) = true ∧
    0 ≤ pyFinVal (safe_decimal (cellPy c) (.fin 0))

/-- The guard of the tabular fee fallback: at least two cells and the
interchange phrase in the row text. -/
def feeRowMatch (row : List (Option String)) : Bool :=
  !(row.length < 2) && strContains (rowText row) "INTERCHANGE FEES TOTAL"

/-- A fold whose step leaves the projection `π` unchanged on every
element the predicate rejects preserves `π` over a list with no
accepted element. -/
theorem foldl_proj_id {α β γ : Type} (step : α → β → α) (π : α → γ) (p : β → Bool)
    (hid : ∀ a b, p b = false → π (step a b) = π a) :
    ∀ (l : List β) (a : α), (∀ b ∈ l, p b = false) → π (l.foldl step a) = π a := by
  intro l
  induction l with
  | nil => intro a _; rfl
  | cons h t ih =>
      intro a hall
      have hh : p h = false := hall h (by simp)
      have ht : ∀ b ∈ t, p b = false := fun b hb => hall b (by simp [hb])
      calc π ((h :: t).foldl step a) = π (t.foldl step (step a h)) := rfl
        _ = π (step a h) := ih (step a h) ht
        _ = π a := hid a h hh

/-- A fold over a list whose filter by `p` is the single element `r`
acts on the projection `π` exactly as the one accepted step does. -/
theorem foldl_proj_single {α β γ : Type} (step : α → β → α) (π : α → γ) (p : β → Bool)
    (g : γ → β → γ)
    (hid : ∀ a b, p b = false → π (step a b) = π a)
    (hg : ∀ a b, p b = true → π (step a b) = g (π a) b) :
    ∀ (l : List β) (a : α) (r : β), l.filter p = [r] → π (l.foldl step a) = g (π a) r := by
  intro l
  induction l with
  | nil => intro a r hr; simp at hr
  | cons h t ih =>
      intro a r hr
      by_cases hp : p h = true
      · have hhr : h = r ∧ t.filter p = [] := by
          have : (h :: t).filter p = h :: t.filter p := by simp [List.filter_cons, hp]
          rw [this] at hr
          exact ⟨(List.cons_eq_cons.mp hr).1, (List.cons_eq_cons.mp hr).2⟩
        have hnone : ∀ b ∈ t, p b = false := by
          intro b hb
          by_contra hcon
          have : b ∈ t.filter p := List.mem_filter.mpr ⟨hb, by revert hcon; simp⟩
          rw [hhr.2] at this
          simp at this
        calc π ((h :: t).foldl step a) = π (t.foldl step (step a h)) := rfl
          _ = π (step a h) := foldl_proj_id step π p hid t (step a h) hnone
          _ = g (π a) h := hg a h hp
          _ = g (π a) r := by rw [hhr.1]
      · have hp' : p h = false := by revert hp; simp
        have hr' : t.filter p = [r] := by
          have : (h :: t).filter p = t.filter p := by simp [List.filter_cons, hp']
          rw [this] at hr; exact hr
        calc π ((h :: t).foldl step a) = π (t.foldl step (step a h)) := rfl
          _ = g (π (step a h)) r := ih (step a h) r hr'
          _ = g (π a) r := by rw [hid a h hp']

/-- Fold-invariant preservation over a list. -/
theorem foldl_induct {α β : Type} {P : α → Prop} (step : α → β → α) :
    ∀ (l : List β) (a : α), P a → (∀ x ∈ l, ∀ b, P b → P (step b x)) → P (l.foldl step a) := by
  intro l
  induction l with
  | nil => intro a ha _; exact ha
  | cons h t ih =>
      intro a ha hstep
      rw [List.foldl_cons]
      exact ih (step a h) (hstep h (List.mem_cons_self h t) a ha)
        (fun x hx b hb => hstep x (List.mem_cons_of_mem h hx) b hb)

/-- A filter that produces `a ++ r :: b` splits the underlying list at
an occurrence of `r`. -/
theorem filter_split {α : Type} (p : α → Bool) :
    ∀ (l a : List α) (r : α) (b : List α), l.filter p = a ++ r :: b →
      ∃ l1 l2, l = l1 ++ r :: l2 ∧ l1.filter p = a ∧ l2.filter p = b ∧ p r = true := by
  intro l
  induction l with
  | nil => intro a r b h; simp at h
  | cons x t ih =>
      intro a r b h
      by_cases hp : p x = true
      · rw [List.filter_cons, if_pos hp] at h
        cases a with
        | nil =>
            simp only [List.nil_append] at h
            obtain ⟨hxr, htf⟩ := List.cons_eq_cons.mp h
            exact ⟨[], t, by rw [hxr]; rfl, rfl, htf, by rw [← hxr]; exact hp⟩
        | cons a0 arest =>
            simp only [List.cons_append] at h
            obtain ⟨hxa, htf⟩ := List.cons_eq_cons.mp h
            obtain ⟨l1, l2, hl, hf1, hf2, hpr⟩ := ih arest r b htf
            exact ⟨x :: l1, l2, by rw [hl]; rfl,
              by rw [List.filter_cons, if_pos hp, hxa, hf1], hf2, hpr⟩
      · rw [List.filter_cons, if_neg hp] at h
        obtain ⟨l1, l2, hl, hf1, hf2, hpr⟩ := ih a r b h
        refine ⟨x :: l1, l2, by rw [hl]; rfl, ?_, hf2, hpr⟩
        rw [List.filter_cons, if_neg hp, hf1]

/-- Evaluation of `decValue` at a natural-cast exponent. -/
theorem decValue_natCast (c : ℤ) (n : ℕ) : decValue c (n : ℤ) = (c : ℚ) * 10 ^ n := by
  rw [decValue, if_pos (Int.natCast_nonneg n)]
  push_cast
  rw [Int.toNat_natCast]

/-- Evaluation of `decValue` at a negated natural-cast exponent. -/
theorem decValue_negNatCast (c : ℤ) (n : ℕ) : decValue c (-(n : ℤ)) = (c : ℚ) / 10 ^ n := by
  rcases Nat.eq_zero_or_pos n with h | h
  · subst h
    rw [decValue, if_pos (by decide)]
    push_cast
    norm_num
  · rw [decValue, if_neg (by omega), neg_neg, Int.toNat_natCast]
    push_cast
    ring

/-- Sign of a `decValue`. -/
theorem decValue_nonneg (c : ℤ) (e : ℤ) : 0 ≤ decValue c e ↔ 0 ≤ c := by
  rw [decValue]
  split
  · push_cast
    constructor
    · intro h
      by_contra hc
      push_neg at hc
      have hcq : (c : ℚ) < 0 := by exact_mod_cast hc
      have hcon := mul_neg_of_neg_of_pos hcq (pow_pos (show (0:ℚ) < 10 by norm_num) e.toNat)
      linarith
    · intro h
      positivity
  · have h10 : (0 : ℚ) < ((10 ^ (-e).toNat : ℕ) : ℚ) := by positivity
    rw [le_div_iff₀ h10]
    simp

/-- Zero test of a `decValue`. -/
theorem decValue_eq_zero (c : ℤ) (e : ℤ) : decValue c e = 0 ↔ c = 0 := by
  rw [decValue]
  split
  · push_cast
    constructor
    · intro h
      rcases mul_eq_zero.mp h with h | h
      · exact_mod_cast h
      · exact absurd h (by positivity)
    · intro h; rw [h]; ring
  · have h10 : ((10 ^ (-e).toNat : ℕ) : ℚ) ≠ 0 := by positivity
    rw [div_eq_zero_iff]
    simp [h10]

/-- Positivity of a `decValue`. -/
theorem decValue_pos (c : ℤ) (e : ℤ) : 0 < decValue c e ↔ 0 < c := by
  constructor
  · intro h
    rcases lt_trichotomy c 0 with hc | hc | hc
    · have := (decValue_nonneg c e).mp h.le
      omega
    · subst hc
      rw [show decValue 0 e = 0 from (decValue_eq_zero 0 e).mpr rfl] at h
      exact absurd h (lt_irrefl 0)
    · exact hc
  · intro h
    rcases lt_or_eq_of_le ((decValue_nonneg c e).mpr h.le) with hv | hv
    · exact hv
    · exact absurd ((decValue_eq_zero c e).mp hv.symm) (by omega)

/-- Unfolded form of `_safe_decimal` on a string. -/
theorem safe_decimal_str (s : String) (d : PyDec) :
    safe_decimal (.str s) d = (pyDecOfString (stripCurrency s)).getD d := by
  show (match pyDecOfString (stripCurrency s) with
    | some x => x
    | Option.none => d) = (pyDecOfString (stripCurrency s)).getD d
  cases pyDecOfString (stripCurrency s) <;> rfl

/-- Evaluation of `_safe_decimal` on a string through a successful
token parse. -/
theorem safe_decimal_eval (s : String) (d : PyDec) (t : NumTok)
    (h : parseNumTok ((pyStrip (stripCurrency s).data).filter (fun c => c ≠ '_')) = some t) :
    safe_decimal (.str s) d = tokVal t := by
  rw [safe_decimal_str, pyDecOfString, h]
  rfl

/-- Evaluation of `_safe_decimal` on a string through a failing token
parse. -/
theorem safe_decimal_evalNone (s : String) (d : PyDec)
    (h : parseNumTok ((pyStrip (stripCurrency s).data).filter (fun c => c ≠ '_')) =
      Option.none) :
    safe_decimal (.str s) d = d := by
  rw [safe_decimal_str, pyDecOfString, h]
  rfl

/-- Evaluation of `_safe_decimal` at a concrete string with a
fractional parse. -/
theorem safe_decimal_finEval (s : String) (d : PyDec) (c : ℤ) (n : ℕ) (q : ℚ)
    (h : parseNumTok ((pyStrip (stripCurrency s).data).filter (fun ch => ch ≠ '_')) =
      some (.fin c (-(n : ℤ))))
    (hq : (c : ℚ) / 10 ^ n = q) :
    safe_decimal (.str s) d = .fin q := by
  rw [safe_decimal_eval s d _ h]
  show PyDec.fin (decValue c (-(n : ℤ))) = .fin q
  rw [decValue_negNatCast, hq]

/-- Evaluation of `_safe_decimal` at a concrete string with a
non-negative-exponent parse. -/
theorem safe_decimal_finEvalP (s : String) (d : PyDec) (c : ℤ) (n : ℕ) (q : ℚ)
    (h : parseNumTok ((pyStrip (stripCurrency s).data).filter (fun ch => ch ≠ '_')) =
      some (.fin c (n : ℤ)))
    (hq : (c : ℚ) * 10 ^ n = q) :
    safe_decimal (.str s) d = .fin q := by
  rw [safe_decimal_eval s d _ h]
  show PyDec.fin (decValue c (n : ℤ)) = .fin q
  rw [decValue_natCast, hq]

/-- `pyAdd` of two finite values. -/
theorem pyAdd_fin (a b : ℚ) : pyAdd (.fin a) (.fin b) = some (.fin (a + b)) := rfl

/-- `pyAdd` never produces a signaling NaN. -/
theorem pyAdd_not_snan (a b c : PyDec) (h : pyAdd a b = some c) : c ≠ .nan true := by
  cases a with
  | fin qa =>
      cases b with
      | fin qb => injection h with h; rw [← h]; intro hc; exact PyDec.noConfusion hc
      | nan s =>
          cases s
          · simp only [pyAdd, if_neg (by decide : ¬(false = true))] at h
            injection h with h
            rw [← h]
            intro hc
            exact Bool.noConfusion (PyDec.nan.inj hc)
          · simp [pyAdd] at h
      | inf n => injection h with h; rw [← h]; intro hc; exact PyDec.noConfusion hc
  | nan s =>
      cases b with
      | fin qb =>
          cases s
          · simp only [pyAdd, if_neg (by decide : ¬(false = true))] at h
            injection h with h
            rw [← h]
            intro hc
            exact Bool.noConfusion (PyDec.nan.inj hc)
          · simp [pyAdd] at h
      | nan t =>
          cases s <;> cases t <;> simp only [pyAdd] at h
          · rw [if_neg (by decide : ¬((false || false) = true))] at h
            injection h with h
            rw [← h]
            intro hc
            exact Bool.noConfusion (PyDec.nan.inj hc)
          · rw [if_pos (by decide)] at h; exact Option.noConfusion h
          · rw [if_pos (by decide)] at h; exact Option.noConfusion h
          · rw [if_pos (by decide)] at h; exact Option.noConfusion h
      | inf n =>
          cases s
          · simp only [pyAdd, if_neg (by decide : ¬(false = true))] at h
            injection h with h
            rw [← h]
            intro hc
            exact Bool.noConfusion (PyDec.nan.inj hc)
          · simp [pyAdd] at h
  | inf n =>
      cases b with
      | fin qb => injection h with h; rw [← h]; intro hc; exact PyDec.noConfusion hc
      | nan s =>
          cases s
          · simp only [pyAdd, if_neg (by decide : ¬(false = true))] at h
            injection h with h
            rw [← h]
            intro hc
            exact Bool.noConfusion (PyDec.nan.inj hc)
          · simp [pyAdd] at h
      | inf m =>
          simp only [pyAdd] at h
          by_cases hnm : n = m
          · rw [if_pos hnm] at h
            injection h with h
            rw [← h]
            intro hc
            exact PyDec.noConfusion hc
          · rw [if_neg hnm] at h
            exact Option.noConfusion h

/-- Adding a finite value on the right signals only for a
signaling-NaN left operand. -/
theorem pyAdd_fin_right (a : PyDec) (b : ℚ) (ha : a ≠ .nan true) :
    ∃ c, pyAdd a (.fin b) = some c := by
  cases a with
  | fin qa => exact ⟨.fin (qa + b), rfl⟩
  | nan s =>
      cases s
      · exact ⟨.nan false, by simp [pyAdd]⟩
      · exact absurd rfl ha
  | inf n => exact ⟨.inf n, rfl⟩

/-- Sum of two non-negative values through `pyAdd`. -/
theorem pyAdd_nonneg (a b c : PyDec) (ha : pyDecNonneg a) (hb : pyDecNonneg b)
    (h : pyAdd a b = some c) : pyDecNonneg c := by
  cases a with
  | fin qa =>
      cases b with
      | fin qb =>
          injection h with h
          rw [← h]
          exact add_nonneg ha hb
      | nan s => exact absurd hb (by rw [pyDecNonneg]; exact fun hc => hc)
      | inf n =>
          injection h with h
          rw [← h]
          exact hb
  | nan s => exact absurd ha (fun hc => hc)
  | inf n =>
      cases b with
      | fin qb =>
          injection h with h
          rw [← h]
          exact ha
      | nan s => exact absurd hb (fun hc => hc)
      | inf m =>
          simp only [pyAdd] at h
          by_cases hnm : n = m
          · rw [if_pos hnm] at h
            injection h with h
            rw [← h]
            exact ha
          · rw [if_neg hnm] at h
            exact Option.noConfusion h

/-- `pyAddSat` preserves non-negativity. -/
theorem pyAddSat_nonneg (a b : PyDec) (ha : pyDecNonneg a) (hb : pyDecNonneg b) :
    pyDecNonneg (pyAddSat a b) := by
  rw [pyAddSat]
  rcases h : pyAdd a b with _ | c
  · exact ha
  · exact pyAdd_nonneg a b c ha hb h

/-- `pyHalf` preserves non-negativity. -/
theorem pyHalf_nonneg (a : PyDec) (ha : pyDecNonneg a) : pyDecNonneg (pyHalf a) := by
  cases a with
  | fin q => exact div_nonneg ha (by norm_num)
  | nan s => exact ha
  | inf n => exact ha

/-- `pyMaxT` preserves non-negativity. -/
theorem pyMaxT_nonneg (a b : PyDec) (ha : pyDecNonneg a) (hb : pyDecNonneg b) :
    pyDecNonneg (pyMaxT a b) := by
  rw [pyMaxT, pyMax]
  rcases h : pyGt b a with _ | t
  · exact ha
  · cases t
    · exact ha
    · exact hb

/-- A value comparing strictly greater than zero is non-negative (and
in particular not a NaN). -/
theorem pyGtZero_nonneg (a : PyDec) (h : pyGt a (.fin 0) = some true) : pyDecNonneg a := by
  cases a with
  | fin q =>
      simp only [pyGt, Option.some.injEq, decide_eq_true_eq] at h
      exact h.le
  | nan s => exact Option.noConfusion h
  | inf n =>
      simp only [pyGt, Option.some.injEq] at h
      rw [pyDecNonneg]
      revert h
      cases n <;> decide

/-- A value comparing strictly greater than zero is truthy. -/
theorem pyGtZero_truthy (a : PyDec) (h : pyGt a (.fin 0) = some true) : pyBool a = true := by
  cases a with
  | fin q =>
      simp only [pyGt, Option.some.injEq, decide_eq_true_eq] at h
      simp only [pyBool, decide_eq_true_eq]
      exact ne_of_gt h
  | nan s => exact Option.noConfusion h
  | inf n => rfl

/-- A value comparing strictly greater than zero is not a NaN. -/
theorem pyGtZero_not_nan (a : PyDec) (h : pyGt a (.fin 0) = some true) :
    ∀ s, a ≠ .nan s := by
  intro s hc
  rw [hc] at h
  exact Option.noConfusion h

/-- `pyNeZero` of a non-zero finite value. -/
theorem pyNeZero_fin_true (q : ℚ) (h : q ≠ 0) : pyNeZero (.fin q) = some true := by
  simp [pyNeZero, h]

/-- `pyNeZero` of zero. -/
theorem pyNeZero_fin_false (q : ℚ) (h : q = 0) : pyNeZero (.fin q) = some false := by
  simp [pyNeZero, h]

/-- A value passing the zero-equality test is the finite zero. -/
theorem pyEqZeroB_eq (d : PyDec) (h : pyEqZeroB d = true) : d = .fin 0 := by
  cases d with
  | fin q =>
      simp only [pyEqZeroB, decide_eq_true_eq] at h
      rw [h]
  | nan s => exact Bool.noConfusion h
  | inf n => exact Bool.noConfusion h

/-- A finite value is what `pyFinVal` says it is. -/
theorem pyIsFin_val (d : PyDec) (h : pyIsFin d = true) : d = .fin (pyFinVal d) := by
  cases d with
  | fin q => rfl
  | nan s => exact Bool.noConfusion h
  | inf n => exact Bool.noConfusion h

/-- Reading one key of the dict after replacing another. -/
theorem cvGet_cvSet (cv : CardVolumes) (n m : Network) (v : CardVol) :
    cvGet (cvSet cv n v) m = if m = n then v else cvGet cv m := by
  cases n <;> cases m <;> simp [cvGet, cvSet]

/-- A dict passing the all-volumes-zero check has the finite zero
volume at every key. -/
theorem allVolumesZero_get (cv : CardVolumes) (h : allVolumesZero cv = true) (n : Network) :
    (cvGet cv n).volume = .fin 0 := by
  rw [allVolumesZero] at h
  simp only [Bool.and_eq_true] at h
  cases n
  · exact pyEqZeroB_eq _ h.1.1.1.1
  · exact pyEqZeroB_eq _ h.1.1.1.2
  · exact pyEqZeroB_eq _ h.1.1.2
  · exact pyEqZeroB_eq _ h.1.2
  · exact pyEqZeroB_eq _ h.2

theorem getLast?_cons_getD {α : Type} (x : α) (xs : List α) :
    (x :: xs).getLast? = some ((xs.getLast?).getD x) := by
  induction xs generalizing x with
  | nil => rfl
  | cons y ys ih =>
      rw [List.getLast?_cons_cons, ih y]
      simp

/-- Characters of the matched prefix of a span satisfy the
predicate. -/
theorem listSpan_left (p : Char → Bool) :
    ∀ (cs : List Char), ∀ c ∈ (listSpan p cs).1, p c = true := by
  intro cs
  induction cs with
  | nil => intro c hc; simp [listSpan] at hc
  | cons d rest ih =>
      intro c hc
      by_cases hd : p d = true
      · rw [listSpan, if_pos hd] at hc
        rcases List.mem_cons.mp hc with hc | hc
        · rw [hc]; exact hd
        · exact ih c hc
      · rw [listSpan, if_neg hd] at hc
        simp at hc

/-- The text an amount match captures consists of digits, commas and
the decimal point. -/
theorem matchAmountAt_chars (cs : List Char) (pr : String × List Char)
    (h : matchAmountAt cs = some pr) :
    ∀ c ∈ pr.1.data, digitComma c = true ∨ c = '.' := by
  rw [matchAmountAt] at h
  by_cases he : (listSpan digitComma cs).1.isEmpty
  · rw [if_pos he] at h; cases h
  · rw [if_neg he] at h
    split at h
    · rename_i a b rest heq
      by_cases hab : (a.isDigit && b.isDigit) = true
      · rw [if_pos hab] at h
        injection h with h
        rw [← h]
        intro c hc
        rcases List.mem_append.mp hc with hc | hc
        · exact Or.inl (listSpan_left digitComma cs c hc)
        · rw [Bool.and_eq_true] at hab
          rcases List.mem_cons.mp hc with hc | hc
          · exact Or.inr hc
          · rcases List.mem_cons.mp hc with hc | hc
            · subst hc; exact Or.inl (by rw [digitComma, hab.1]; rfl)
            · rcases List.mem_cons.mp hc with hc | hc
              · subst hc; exact Or.inl (by rw [digitComma, hab.2]; rfl)
              · simp at hc
      · rw [if_neg hab] at h; cases h
    · cases h

/-- A successful search comes from a successful anchored match. -/
theorem searchFirst_some {α : Type} (m : List Char → Option α) :
    ∀ (l : List Char) (x : α), searchFirst m l = some x → ∃ l2, m l2 = some x := by
  intro l
  induction l with
  | nil => intro x h; exact ⟨[], h⟩
  | cons c rest ih =>
      intro x h
      rw [searchFirst] at h
      rcases hm : m (c :: rest) with _ | y
      · rw [hm] at h; exact ih x h
      · rw [hm] at h; exact ⟨c :: rest, hm.trans h⟩

/-- The string a dollar-amount match returns is an amount capture. -/
theorem matchDollarAmountAt_amount (cs : List Char) (s : String)
    (h : matchDollarAmountAt cs = some s) :
    ∃ cs2 pr, matchAmountAt cs2 = some pr ∧ pr.1 = s := by
  cases cs with
  | nil => exact Option.noConfusion h
  | cons c0 r =>
      rw [matchDollarAmountAt] at h
      by_cases hc : c0 = '$'
      · rw [if_pos hc] at h
        split at h
        · rename_i p hp
          injection h with h
          exact ⟨_, p, hp, h⟩
        · exact Option.noConfusion h
      · rw [if_neg hc] at h
        exact Option.noConfusion h

/-- Every string `findAllAux` collects is an amount capture. -/
theorem findAllAux_mem :
    ∀ (fuel : ℕ) (l : List Char) (s : String), s ∈ findAllAux fuel l →
      ∃ cs2 pr, matchAmountAt cs2 = some pr ∧ pr.1 = s := by
  intro fuel
  induction fuel with
  | zero => intro l s h; simp [findAllAux] at h
  | succ k ih =>
      intro l s h
      cases l with
      | nil => simp [findAllAux] at h
      | cons c rest =>
          rw [findAllAux] at h
          rcases hm : matchAmountAt (c :: rest) with _ | p
          · rw [hm] at h
            exact ih rest s h
          · rw [hm] at h
            rcases List.mem_cons.mp h with h | h
            · exact ⟨c :: rest, p, hm, h.symm⟩
            · exact ih p.2 s h

/-- The amount group of the count-and-amount tail matcher is an amount
capture. -/
theorem matchCountAmountAfter_amount (cs : List Char) (c a : String)
    (h : matchCountAmountAfter cs = some (c, a)) :
    ∃ cs2 pr, matchAmountAt cs2 = some pr ∧ pr.1 = a := by
  simp only [matchCountAmountAfter] at h
  split at h
  · cases h
  · split at h
    · cases h
    · split at h
      · cases h
      · split at h
        · rename_i p hp
          injection h with h
          exact ⟨_, p, hp, congrArg Prod.snd h⟩
        · cases h

/-- The amount group of the card pattern matcher is an amount
capture. -/
theorem matchCardAt_amount :
    ∀ (kws : List String) (cs : List Char) (c a : String),
      matchCardAt kws cs = some (c, a) →
      ∃ cs2 pr, matchAmountAt cs2 = some pr ∧ pr.1 = a := by
  intro kws
  induction kws with
  | nil => intro cs c a h; cases h
  | cons kw rest ih =>
      intro cs c a h
      rw [matchCardAt] at h
      split at h
      all_goals try exact ih cs c a h
      rename_i rest2 hrest
      split at h
      all_goals try exact ih cs c a h
      rename_i r hr
      injection h with h
      subst h
      exact matchCountAmountAfter_amount rest2 c a hr

/-- The amount group of a card-pattern search is an amount capture. -/
theorem searchCard_amount (kws : List String) (line : String) (c a : String)
    (h : searchCard kws line = some (c, a)) :
    ∃ cs2 pr, matchAmountAt cs2 = some pr ∧ pr.1 = a := by
  obtain ⟨l2, hl2⟩ := searchFirst_some (matchCardAt kws) line.data (c, a) h
  exact matchCardAt_amount kws l2 c a hl2

/-- Membership survives a both-ends strip. -/
theorem stripBy_mem {p : Char → Bool} {c : Char} {l : List Char}
    (h : c ∈ stripBy p l) : c ∈ l := by
  rw [stripBy] at h
  rw [List.mem_reverse] at h
  have h2 := (List.dropWhile_sublist p).mem h
  rw [List.mem_reverse] at h2
  exact (List.dropWhile_sublist p).mem h2

/-- Membership survives Python stripping. -/
theorem pyStrip_mem {c : Char} {l : List Char} (h : c ∈ pyStrip l) : c ∈ l :=
  stripBy_mem h

/-- Membership of a guarded `getD` cell. -/
theorem getD_mem {l : List (Option String)} {i : ℕ} (h : i < l.length) :
    l.getD i Option.none ∈ l := by
  rw [List.getD_eq_getElem l Option.none h]
  exact List.getElem_mem h

/-- A digit or dot never matches a (case-insensitive) letter of a
special-value keyword. -/
theorem ciChar_false {c : Char} (h : c.isDigit = true ∨ c = '.') {k : Char}
    (h1 : k.isDigit = false) (h2 : ¬(k = '.'))
    (h3 : k.toUpper.isDigit = false) (h4 : ¬(k.toUpper = '.')) :
    ciChar k c = false := by
  rw [ciChar]
  have e1 : ¬(c = k) := by
    intro he
    subst he
    rcases h with h | h
    · rw [h1] at h; exact Bool.noConfusion h
    · exact h2 h
  have e2 : ¬(c = k.toUpper) := by
    intro he
    subst he
    rcases h with h | h
    · rw [h3] at h; exact Bool.noConfusion h
    · exact h4 h
  simp [e1, e2]

/-- A string starting with a digit or dot is not an infinity
keyword. -/
theorem isInfBody_false {c : Char} (r : List Char) (h : c.isDigit = true ∨ c = '.') :
    isInfBody (c :: r) = false := by
  rw [isInfBody, show "inf".data = ['i', 'n', 'f'] from rfl,
    show "infinity".data = ['i', 'n', 'f', 'i', 'n', 'i', 't', 'y'] from rfl]
  rw [show ciAll ['i', 'n', 'f'] (c :: r) = (ciChar 'i' c && ciAll ['n', 'f'] r) from rfl,
    show ciAll ['i', 'n', 'f', 'i', 'n', 'i', 't', 'y'] (c :: r) =
      (ciChar 'i' c && ciAll ['n', 'f', 'i', 'n', 'i', 't', 'y'] r) from rfl,
    ciChar_false h (by decide) (by decide) (by decide) (by decide)]
  rfl

/-- A string starting with a digit or dot is not a NaN keyword. -/
theorem isNanTail_false {c : Char} (r : List Char) (h : c.isDigit = true ∨ c = '.') :
    isNanTail (c :: r) = false := by
  cases r with
  | nil => rfl
  | cons a2 r2 =>
      cases r2 with
      | nil => rfl
      | cons n3 r3 =>
          show (ciChar 'n' c && ciChar 'a' a2 && ciChar 'n' n3 && r3.all Char.isDigit) = false
          rw [ciChar_false h (by decide) (by decide) (by decide) (by decide)]
          rfl

/-- No string of digits and dots is a special value. -/
theorem parseSpecial_digitsDot :
    ∀ cs : List Char, (∀ c ∈ cs, c.isDigit = true ∨ c = '.') →
      parseSpecial cs = Option.none := by
  intro cs h
  cases cs with
  | nil => rfl
  | cons c r =>
      have hc := h c (List.mem_cons_self c r)
      rw [parseSpecial, isInfBody_false r hc, isNanTail_false r hc]
      have hs : ((c = 's' || c = 'S') && isNanTail r) = false := by
        have e1 : ¬(c = 's') := by
          intro he
          subst he
          rcases hc with hc | hc
          · exact Bool.noConfusion hc
          · exact absurd hc (by decide)
        have e2 : ¬(c = 'S') := by
          intro he
          subst he
          rcases hc with hc | hc
          · exact Bool.noConfusion hc
          · exact absurd hc (by decide)
        simp [e1, e2]
      simp only [Bool.false_eq_true, if_false]
      rw [hs]
      rfl

/-- On a string of digits and dots, the numeric-string parse yields
nothing or a finite value with a non-negative coefficient. -/
theorem parseNumTok_digitsDot (cs : List Char)
    (h : ∀ c ∈ cs, c.isDigit = true ∨ c = '.') :
    parseNumTok cs = Option.none ∨
      ∃ (n : ℕ) (e : ℤ), parseNumTok cs = some (.fin (n : ℤ) e) := by
  cases cs with
  | nil => exact Or.inl (by decide)
  | cons c r =>
      have hc := h c (List.mem_cons_self c r)
      have hm : ¬(c = '-') := by
        intro he
        subst he
        rcases hc with hc | hc
        · exact Bool.noConfusion hc
        · exact absurd hc (by decide)
      have hp : ¬(c = '+') := by
        intro he
        subst he
        rcases hc with hc | hc
        · exact Bool.noConfusion hc
        · exact absurd hc (by decide)
      have he : parseNumTok (c :: r) = parseNumBody false (c :: r) := by
        show (if c = '-' then parseNumBody true r
          else if c = '+' then parseNumBody false r
          else parseNumBody false (c :: r)) = parseNumBody false (c :: r)
        rw [if_neg hm, if_neg hp]
      rw [he, parseNumBody]
      rcases hdp : parseDecPart (c :: r) with _ | p
      · rw [parseSpecial_digitsDot (c :: r) h]
        exact Or.inl rfl
      · exact Or.inr ⟨p.1, p.2, rfl⟩

/-- The characters of a symbol-stripped amount capture are digits and
dots. -/
theorem stripCurrency_chars (s : String)
    (h : ∀ c ∈ s.data, digitComma c = true ∨ c = '.') :
    ∀ c ∈ (stripCurrency s).data, c.isDigit = true ∨ c = '.' := by
  intro c hc
  rw [stripCurrency] at hc
  have hc2 := pyStrip_mem hc
  have hc3 := (List.mem_filter.mp hc2).1
  rcases List.mem_map.mp hc3 with ⟨c0, hc0, hce⟩
  have hc0s : c0 ∈ s.data := (List.mem_filter.mp ((List.mem_filter.mp hc0).1)).1
  have hc0ne : ¬(c0 = ',') := by
    have := (List.mem_filter.mp hc0).2
    simp only [decide_eq_true_eq] at this
    exact this
  have hc0p : ¬(c0 = '(') := by
    intro he
    rcases h c0 hc0s with hd | hd
    · rw [he] at hd; exact Bool.noConfusion hd
    · rw [he] at hd; exact absurd hd (by decide)
  rw [if_neg hc0p] at hce
  subst hce
  rcases h c0 hc0s with hd | hd
  · rw [digitComma] at hd
    rcases Bool.or_eq_true_iff.mp hd with hd | hd
    · exact Or.inl hd
    · simp only [decide_eq_true_eq] at hd
      exact absurd hd hc0ne
  · exact Or.inr hd

/-- `_safe_decimal` of an amount capture (digits, commas, one dot) is
a non-negative finite value. -/
theorem amount_capture_fin (s : String)
    (h : ∃ cs2 pr, matchAmountAt cs2 = some pr ∧ pr.1 = s) :
    ∃ q : ℚ, 0 ≤ q ∧ safe_decimal (.str s) (.fin 0) = .fin q := by
  obtain ⟨cs2, pr, hpr, hs⟩ := h
  have hch : ∀ c ∈ s.data, digitComma c = true ∨ c = '.' := by
    have := matchAmountAt_chars cs2 pr hpr
    rw [hs] at this
    exact this
  have hsc := stripCurrency_chars s hch
  have hall : ∀ c ∈ (pyStrip (stripCurrency s).data).filter (fun ch => ch ≠ '_'),
      c.isDigit = true ∨ c = '.' := by
    intro c hc
    exact hsc c (pyStrip_mem (List.mem_filter.mp hc).1)
  rcases parseNumTok_digitsDot _ hall with hp | ⟨n, e, hp⟩
  · exact ⟨0, le_refl 0, safe_decimal_evalNone s (.fin 0) hp⟩
  · refine ⟨decValue (n : ℤ) e, ?_, ?_⟩
    · exact (decValue_nonneg _ _).mpr (Int.natCast_nonneg n)
    · rw [safe_decimal_eval s (.fin 0) _ hp]
      rfl

/-- The net clause leaves the count unchanged. -/
theorem cardRowNet_count (row : List (Option String)) (cd : CardVol) :
    (cardRowNet row cd).count = cd.count := by
  rw [cardRowNet]
  by_cases h6 : (row.length > 6 && cellTruthy (row.getD 6 Option.none)) = true
  · rw [if_pos h6, cardRowNetApply]
    rcases pyNeZero (safe_decimal (cellPy (row.getD 6 Option.none)) (.fin 0)) with _ | b
    · rfl
    · cases b <;> rfl
  · rw [if_neg h6]

/-- The count-and-net stage: the count grows by the row's count
contribution. -/
theorem cardRowCountNet_count (row : List (Option String)) (cd : CardVol) :
    (cardRowCountNet row cd).count = cd.count + countContrib row := by
  rw [cardRowCountNet, cardRowNet_count, countContrib]
  by_cases h1 : (row.length > 1 && cellTruthy (row.getD 1 Option.none)) = true
  · rw [if_pos h1, if_pos h1]
  · rw [if_neg h1, if_neg h1, add_zero]

/-- `_parse_card_row` always accumulates the count when the gross
addition cannot signal (column 2 finite, running volume not a
signaling NaN). -/
theorem parse_card_row_count (row : List (Option String)) (cd : CardVol)
    (hcd : cd.volume ≠ .nan true)
    (hfin : (row.length > 2 && cellTruthy (row.getD 2 Option.none)) = true →
      pyIsFin (safe_decimal (cellPy (row.getD 2 Option.none)) (.fin 0)) = true) :
    (parse_card_row row cd).count = cd.count + countContrib row := by
  rw [parse_card_row]
  by_cases h2 : (row.length > 2 && cellTruthy (row.getD 2 Option.none)) = true
  · rw [if_pos h2]
    have hv := pyIsFin_val _ (hfin h2)
    rw [hv]
    obtain ⟨c, hc⟩ := pyAdd_fin_right cd.volume _ hcd
    rw [hc]
    exact cardRowCountNet_count row _
  · rw [if_neg h2]
    exact cardRowCountNet_count row cd

/-- `_parse_card_row` keeps the volume off the signaling NaN. -/
theorem parse_card_row_not_snan (row : List (Option String)) (cd : CardVol)
    (hcd : cd.volume ≠ .nan true) :
    (parse_card_row row cd).volume ≠ .nan true := by
  have hnet : ∀ cd2 : CardVol, cd2.volume ≠ .nan true →
      (cardRowNet row cd2).volume ≠ .nan true := by
    intro cd2 h2
    rw [cardRowNet]
    by_cases h6 : (row.length > 6 && cellTruthy (row.getD 6 Option.none)) = true
    · rw [if_pos h6, cardRowNetApply]
      rcases hz : pyNeZero (safe_decimal (cellPy (row.getD 6 Option.none)) (.fin 0)) with _ | b
      · exact h2
      · cases b
        · exact h2
        · intro hc
          show False
          have : safe_decimal (cellPy (row.getD 6 Option.none)) (.fin 0) = .nan true := hc
          rw [this] at hz
          simp [pyNeZero] at hz
    · rw [if_neg h6]
      exact h2
  have hcn : ∀ cd2 : CardVol, cd2.volume ≠ .nan true →
      (cardRowCountNet row cd2).volume ≠ .nan true := by
    intro cd2 h2
    rw [cardRowCountNet]
    by_cases h1 : (row.length > 1 && cellTruthy (row.getD 1 Option.none)) = true
    · rw [if_pos h1]
      exact hnet _ h2
    · rw [if_neg h1]
      exact hnet _ h2
  rw [parse_card_row]
  by_cases h2 : (row.length > 2 && cellTruthy (row.getD 2 Option.none)) = true
  · rw [if_pos h2]
    rcases ha : pyAdd cd.volume (safe_decimal (cellPy (row.getD 2 Option.none)) (.fin 0))
        with _ | v
    · exact hcd
    · exact hcn _ (pyAdd_not_snan _ _ v ha)
  · rw [if_neg h2]
    exact hcn cd hcd

/-- `_parse_card_row` keeps the volume finite on a row whose numeric
cells are finite. -/
theorem parse_card_row_fin (row : List (Option String)) (cd : CardVol)
    (hrow : rowFinOK row) (hcd : pyIsFin cd.volume = true) :
    pyIsFin (parse_card_row row cd).volume = true := by
  have hnet : ∀ cd2 : CardVol, pyIsFin cd2.volume = true →
      pyIsFin (cardRowNet row cd2).volume = true := by
    intro cd2 h2
    rw [cardRowNet]
    by_cases h6 : (row.length > 6 && cellTruthy (row.getD 6 Option.none)) = true
    · rw [if_pos h6, cardRowNetApply]
      rcases hz : pyNeZero (safe_decimal (cellPy (row.getD 6 Option.none)) (.fin 0)) with _ | b
      · exact h2
      · cases b
        · exact h2
        · exact hrow.2.2.2.2 h6
    · rw [if_neg h6]
      exact h2
  have hcn : ∀ cd2 : CardVol, pyIsFin cd2.volume = true →
      pyIsFin (cardRowCountNet row cd2).volume = true := by
    intro cd2 h2
    rw [cardRowCountNet]
    by_cases h1 : (row.length > 1 && cellTruthy (row.getD 1 Option.none)) = true
    · rw [if_pos h1]
      exact hnet _ h2
    · rw [if_neg h1]
      exact hnet _ h2
  rw [parse_card_row]
  by_cases h2 : (row.length > 2 && cellTruthy (row.getD 2 Option.none)) = true
  · rw [if_pos h2]
    rw [pyIsFin_val _ hcd, pyIsFin_val _ (hrow.2.2.2.1 h2), pyAdd_fin]
    exact hcn _ rfl
  · rw [if_neg h2]
    exact hcn cd hcd

/-- `_parse_card_row` on a finite running volume and a row without an
effective net-sales override: the volume grows by the gross
contribution and the count by the count contribution. -/
theorem parse_card_row_no_over (row : List (Option String)) (v : ℚ) (k : ℤ)
    (hfin : (row.length > 2 && cellTruthy (row.getD 2 Option.none)) = true →
      pyIsFin (safe_decimal (cellPy (row.getD 2 Option.none)) (.fin 0)) = true)
    (hov : rowOverrideB row = false) :
    parse_card_row row ⟨.fin v, k⟩ = ⟨.fin (v + grossContrib row), k + countContrib row⟩ := by
  have hnet : ∀ cd2 : CardVol, cardRowNet row cd2 = cd2 := by
    intro cd2
    rw [cardRowNet]
    by_cases h6 : (row.length > 6 && cellTruthy (row.getD 6 Option.none)) = true
    · rw [if_pos h6, cardRowNetApply]
      rcases hz : pyNeZero (netCell row) with _ | b
      · rw [show pyNeZero (safe_decimal (cellPy (row.getD 6 Option.none)) (.fin 0)) =
          pyNeZero (netCell row) from rfl, hz]
      · cases b
        · rw [show pyNeZero (safe_decimal (cellPy (row.getD 6 Option.none)) (.fin 0)) =
            pyNeZero (netCell row) from rfl, hz]
        · rw [rowOverrideB, h6] at hov
          simp only [Bool.true_and] at hov
          rw [hz] at hov
          exact absurd hov (by simp)
    · rw [if_neg h6]
  have hcn : ∀ (v2 : PyDec) (k2 : ℤ), cardRowCountNet row ⟨v2, k2⟩ =
      ⟨v2, k2 + countContrib row⟩ := by
    intro v2 k2
    rw [cardRowCountNet, countContrib]
    by_cases h1 : (row.length > 1 && cellTruthy (row.getD 1 Option.none)) = true
    · rw [if_pos h1, if_pos h1, hnet]
    · rw [if_neg h1, if_neg h1, hnet, add_zero]
  rw [parse_card_row, grossContrib]
  by_cases h2 : (row.length > 2 && cellTruthy (row.getD 2 Option.none)) = true
  · rw [if_pos h2, if_pos h2, pyIsFin_val _ (hfin h2), pyAdd_fin]
    exact hcn _ k
  · rw [if_neg h2, if_neg h2, add_zero]
    exact hcn _ k

/-- `_parse_card_row` on a finite running volume and a row with an
effective net-sales override (column 2, when consulted, not a
signaling NaN, so the addition does not abort the row): the volume is
replaced by the net figure. -/
theorem parse_card_row_over (row : List (Option String)) (v : ℚ) (k : ℤ)
    (hns : (row.length > 2 && cellTruthy (row.getD 2 Option.none)) = true →
      safe_decimal (cellPy (row.getD 2 Option.none)) (.fin 0) ≠ .nan true)
    (hov : rowOverrideB row = true) :
    parse_card_row row ⟨.fin v, k⟩ = ⟨netCell row, k + countContrib row⟩ := by
  have hgate : (row.length > 6 && cellTruthy (row.getD 6 Option.none)) = true := by
    rw [rowOverrideB, Bool.and_eq_true] at hov
    exact hov.1
  have hnz : pyNeZero (netCell row) = some true := by
    rw [rowOverrideB, Bool.and_eq_true] at hov
    have := hov.2
    rcases hz : pyNeZero (netCell row) with _ | b
    · rw [hz] at this; exact absurd this (by simp)
    · rw [hz] at this
      cases b
      · exact absurd this (by simp)
      · rfl
  have hnet : ∀ cd2 : CardVol, cardRowNet row cd2 = { cd2 with volume := netCell row } := by
    intro cd2
    rw [cardRowNet, if_pos hgate, cardRowNetApply]
    rw [show pyNeZero (safe_decimal (cellPy (row.getD 6 Option.none)) (.fin 0)) =
      pyNeZero (netCell row) from rfl, hnz]
    rfl
  have hcn : ∀ (v2 : PyDec) (k2 : ℤ), cardRowCountNet row ⟨v2, k2⟩ =
      ⟨netCell row, k2 + countContrib row⟩ := by
    intro v2 k2
    rw [cardRowCountNet, countContrib]
    by_cases h1 : (row.length > 1 && cellTruthy (row.getD 1 Option.none)) = true
    · rw [if_pos h1, if_pos h1, hnet]
    · rw [if_neg h1, if_neg h1, hnet, add_zero]
  rw [parse_card_row]
  by_cases h2 : (row.length > 2 && cellTruthy (row.getD 2 Option.none)) = true
  · rw [if_pos h2]
    rcases pyAdd_fin_right (PyDec.fin v) (pyFinVal (safe_decimal (cellPy (row.getD 2
        Option.none)) (.fin 0))) (by intro hc; exact PyDec.noConfusion hc) with ⟨c, hc⟩
    rcases ha : pyAdd (PyDec.fin v) (safe_decimal (cellPy (row.getD 2 Option.none)) (.fin 0))
        with _ | w
    · exfalso
      rcases hsd : safe_decimal (cellPy (row.getD 2 Option.none)) (.fin 0) with q | sg | ng
      · rw [hsd] at ha
        exact Option.noConfusion (ha.symm.trans (pyAdd_fin v q))
      · cases sg
        · rw [hsd] at ha
          simp [pyAdd] at ha
        · exact (hns h2) hsd
      · rw [hsd] at ha
        exact Option.noConfusion ha
    · exact hcn w k
  · rw [if_neg h2]
    exact hcn _ k

/-- Rows the tabular fallback does not classify as network `n` leave
the `n` entry untouched. -/
theorem cardTableStep_ne (a : CardVolumes) (b : List (Option String)) (n : Network)
    (h : decide (cardRowNetwork b = some n) = false) :
    cvGet (cardTableStep a b) n = cvGet a n := by
  rw [cardTableStep]
  rcases hm : cardRowNetwork b with _ | m
  · rfl
  · rw [hm] at h
    simp only [decide_eq_false_iff_not] at h
    have hmn : m ≠ n := fun he => h (by rw [he])
    rw [cvGet_cvSet]
    simp [Ne.symm hmn]

/-- A row the tabular fallback classifies as network `n` rewrites the
`n` entry through `_parse_card_row`. -/
theorem cardTableStep_eq (a : CardVolumes) (b : List (Option String)) (n : Network)
    (h : decide (cardRowNetwork b = some n) = true) :
    cvGet (cardTableStep a b) n = parse_card_row b (cvGet a n) := by
  simp only [decide_eq_true_eq] at h
  rw [cardTableStep, h, cvGet_cvSet]
  simp

/-- The tabular fallback keeps every volume off the signaling NaN. -/
theorem cardTableStep_not_snan (cv : CardVolumes) (row : List (Option String))
    (h : ∀ m, (cvGet cv m).volume ≠ .nan true) :
    ∀ m, (cvGet (cardTableStep cv row) m).volume ≠ .nan true := by
  intro m
  rw [cardTableStep]
  rcases hm : cardRowNetwork row with _ | n
  · exact h m
  · rw [cvGet_cvSet]
    by_cases hmn : m = n
    · rw [if_pos hmn]
      exact parse_card_row_not_snan row _ (h n)
    · rw [if_neg hmn]
      exact h m

/-- Over the tabular fallback, the volume at `n` stays finite when
every row classified `n` has finite numeric cells. -/
theorem cardTableStep_foldl_fin (n : Network) :
    ∀ (l : List (List (Option String))) (cv : CardVolumes),
      (∀ row ∈ l, cardRowNetwork row = some n → rowFinOK row) →
      pyIsFin (cvGet cv n).volume = true →
      pyIsFin (cvGet (l.foldl cardTableStep cv) n).volume = true := by
  intro l
  induction l with
  | nil => intro cv _ h; exact h
  | cons r t ih =>
      intro cv hall h
      rw [List.foldl_cons]
      refine ih (cardTableStep cv r) (fun row hr => hall row (List.mem_cons_of_mem r hr)) ?_
      by_cases hp : decide (cardRowNetwork r = some n) = true
      · rw [cardTableStep_eq cv r n hp]
        exact parse_card_row_fin r _ (hall r (List.mem_cons_self r t) (of_decide_eq_true hp)) h
      · rw [cardTableStep_ne cv r n (by revert hp; simp)]
        exact h

/-- Over the tabular fallback, the count at `n` accumulates the count
contributions of the rows classified `n` (volumes never being a
signaling NaN, the count statement is always reached). -/
theorem cardTableStep_foldl_count (n : Network) :
    ∀ (l : List (List (Option String))) (cv : CardVolumes),
      (∀ m, (cvGet cv m).volume ≠ .nan true) →
      (∀ row ∈ l, cardRowNetwork row = some n → rowFinOK row) →
      (cvGet (l.foldl cardTableStep cv) n).count =
        (cvGet cv n).count +
          ((l.filter (fun row => decide (cardRowNetwork row = some n))).map countContrib).sum := by
  intro l
  induction l with
  | nil => intro cv _ _; simp
  | cons r t ih =>
      intro cv hsn hall
      rw [List.foldl_cons, List.filter_cons]
      have hsn2 := cardTableStep_not_snan cv r hsn
      have hallt := fun row hr => hall row (List.mem_cons_of_mem r hr)
      by_cases hp : decide (cardRowNetwork r = some n) = true
      · rw [if_pos hp, ih (cardTableStep cv r) hsn2 hallt, cardTableStep_eq cv r n hp,
          parse_card_row_count r _ (hsn n)
            (hall r (List.mem_cons_self r t) (of_decide_eq_true hp)).2.2.2.1]
        simp [add_assoc]
      · rw [if_neg hp, ih (cardTableStep cv r) hsn2 hallt, cardTableStep_ne cv r n
          (by revert hp; simp)]

/-- Over the tabular fallback, when no row classified `n` carries an
effective net-sales override, the volume at `n` accumulates the gross
contributions. -/
theorem cardTableStep_foldl_noover (n : Network) :
    ∀ (l : List (List (Option String))) (cv : CardVolumes) (v : ℚ),
      (∀ row ∈ l, cardRowNetwork row = some n → rowFinOK row) →
      (∀ row ∈ l, cardRowNetwork row = some n → rowOverrideB row = false) →
      (cvGet cv n).volume = .fin v →
      (cvGet (l.foldl cardTableStep cv) n).volume =
        .fin (v +
          ((l.filter (fun row => decide (cardRowNetwork row = some n))).map grossContrib).sum) := by
  intro l
  induction l with
  | nil => intro cv v _ _ hv; simp [hv]
  | cons r t ih =>
      intro cv v hall hov hv
      rw [List.foldl_cons, List.filter_cons]
      have hallt := fun row hr => hall row (List.mem_cons_of_mem r hr)
      have hovt := fun row hr => hov row (List.mem_cons_of_mem r hr)
      by_cases hp : decide (cardRowNetwork r = some n) = true
      · have hstep : cvGet (cardTableStep cv r) n = parse_card_row r (cvGet cv n) :=
          cardTableStep_eq cv r n hp
        have hr := of_decide_eq_true hp
        have hrow : parse_card_row r (cvGet cv n) =
            ⟨.fin (v + grossContrib r), (cvGet cv n).count + countContrib r⟩ := by
          have := parse_card_row_no_over r v (cvGet cv n).count
            (hall r (List.mem_cons_self r t) hr).2.2.2.1
            (hov r (List.mem_cons_self r t) hr)
          rw [← this]
          congr 1
          rw [← hv]
        rw [if_pos hp, ih (cardTableStep cv r) (v + grossContrib r) hallt hovt
          (by rw [hstep, hrow])]
        simp [add_assoc]
      · rw [if_neg hp, ih (cardTableStep cv r) v hallt hovt
          (by rw [cardTableStep_ne cv r n (by revert hp; simp), hv])]

theorem cardLineStep_foldl_last (n : Network) :
    ∀ (l : List String) (cv : CardVolumes),
      cvGet (l.foldl cardLineStep cv) n =
        (match (l.filterMap (lineMatchFor n)).getLast? with
         | some p => ⟨safe_decimal (.str p.2) (.fin 0), safe_int (.str p.1) 0⟩
         | Option.none => cvGet cv n) := by
  intro l
  induction l with
  | nil => intro cv; rfl
  | cons h t ih =>
      intro cv
      rw [List.foldl_cons, List.filterMap_cons]
      rcases hm : lineMatch h with _ | ⟨m, p⟩
      · rw [show cardLineStep cv h = cv from by rw [cardLineStep, hm],
          show lineMatchFor n h = Option.none from by rw [lineMatchFor, hm]]
        exact ih cv
      · have hstep : cardLineStep cv h =
            cvSet cv m ⟨safe_decimal (.str p.2) (.fin 0), safe_int (.str p.1) 0⟩ := by
          rw [cardLineStep, hm]
        by_cases hmn : m = n
        · subst hmn
          rw [show lineMatchFor m h = some p from by rw [lineMatchFor, hm]; simp]
          rw [hstep, ih, getLast?_cons_getD]
          rcases hft : (t.filterMap (lineMatchFor m)).getLast? with _ | q
          · simp [cvGet_cvSet]
          · simp
        · rw [show lineMatchFor n h = Option.none from by
            rw [lineMatchFor, hm]; simp [hmn]]
          rw [hstep, ih]
          rcases hft : (t.filterMap (lineMatchFor n)).getLast? with _ | q
          · simp [cvGet_cvSet, hmn, Ne.symm hmn]
          · simp

/-- A cell passing `cellNonnegOK` converts to a non-negative (finite)
value. -/
theorem cellNonnegOK_nonneg (c : Option String) (h : cellNonnegOK c) :
    pyDecNonneg (safe_decimal (cellPy c) (.fin 0)) := by
  rw [pyIsFin_val _ h.2.1]
  exact h.2.2

/-- Amounts found by `_extract_amount_from_line` are finite and
non-negative (both the dollar-anchored search and the trailing
`findall` path only capture unsigned amounts). -/
theorem extract_amount_from_line_fin (line : String) (a : PyDec)
    (h : extract_amount_from_line line = some a) : ∃ q : ℚ, 0 ≤ q ∧ a = .fin q := by
  rw [extract_amount_from_line] at h
  split at h
  · rename_i s hs
    injection h with h
    obtain ⟨l2, hl2⟩ := searchFirst_some matchDollarAmountAt line.data s hs
    obtain ⟨q, hq, hv⟩ := amount_capture_fin s (matchDollarAmountAt_amount l2 s hl2)
    exact ⟨q, hq, by rw [← h, hv]⟩
  · split at h
    · rename_i s hs
      injection h with h
      have hmem : s ∈ findAllAmounts line.data := List.mem_of_mem_getLast? hs
      obtain ⟨q, hq, hv⟩ := amount_capture_fin s (findAllAux_mem line.data.length line.data s hmem)
      exact ⟨q, hq, by rw [← h, hv]⟩
    · exact Option.noConfusion h

/-- Amounts found by the card-pattern search are finite and
non-negative. -/
theorem searchCard_fin (kws : List String) (line : String) (c a : String)
    (h : searchCard kws line = some (c, a)) :
    ∃ q : ℚ, 0 ≤ q ∧ safe_decimal (.str a) (.fin 0) = .fin q :=
  amount_capture_fin a (searchCard_amount kws line c a h)

/-- The amount group of a line-layer match is finite and
non-negative. -/
theorem lineMatch_fin (line : String) (n : Network) (c a : String)
    (h : lineMatch line = some (n, c, a)) :
    ∃ q : ℚ, 0 ≤ q ∧ safe_decimal (.str a) (.fin 0) = .fin q := by
  have key : ∀ (kws : List String) (m : Network),
      Option.map (fun p => (m, p)) (searchCard kws line) = some (n, c, a) →
      ∃ q : ℚ, 0 ≤ q ∧ safe_decimal (.str a) (.fin 0) = .fin q := by
    intro kws m hmap
    rcases Option.map_eq_some'.mp hmap with ⟨p, hp, heq⟩
    have hpca : p = (c, a) := by
      have := congrArg Prod.snd heq
      simpa using this
    rw [hpca] at hp
    exact searchCard_fin kws line c a hp
  rw [lineMatch] at h
  split at h
  · exact key _ _ h
  · split at h
    · exact key _ _ h
    · split at h
      · exact key _ _ h
      · split at h
        · exact key _ _ h
        · split at h
          · exact key _ _ h
          · exact Option.noConfusion h

/-- The line layer preserves non-negative volumes. -/
theorem cardLineStep_nonneg (cv : CardVolumes) (line : String)
    (h : ∀ n, pyDecNonneg (cvGet cv n).volume) :
    ∀ n, pyDecNonneg (cvGet (cardLineStep cv line) n).volume := by
  intro n
  rw [cardLineStep]
  rcases hm : lineMatch line with _ | ⟨m, c, a⟩
  · exact h n
  · rw [cvGet_cvSet]
    by_cases hmn : n = m
    · rw [if_pos hmn]
      obtain ⟨q, hq, hv⟩ := lineMatch_fin line m c a hm
      show pyDecNonneg (safe_decimal (.str a) (.fin 0))
      rw [hv]
      exact hq
    · rw [if_neg hmn]
      exact h n

/-- The line layer keeps every volume off the signaling NaN. -/
theorem cardLineStep_not_snan (cv : CardVolumes) (line : String)
    (h : ∀ n, (cvGet cv n).volume ≠ .nan true) :
    ∀ n, (cvGet (cardLineStep cv line) n).volume ≠ .nan true := by
  intro n
  rw [cardLineStep]
  rcases hm : lineMatch line with _ | ⟨m, c, a⟩
  · exact h n
  · rw [cvGet_cvSet]
    by_cases hmn : n = m
    · rw [if_pos hmn]
      obtain ⟨q, hq, hv⟩ := lineMatch_fin line m c a hm
      show safe_decimal (.str a) (.fin 0) ≠ .nan true
      rw [hv]
      intro hc
      exact PyDec.noConfusion hc
    · rw [if_neg hmn]
      exact h n

/-- On a row whose cells all pass `cellNonnegOK`, `_parse_card_row`
keeps the volume non-negative. -/
theorem parse_card_row_nonneg (row : List (Option String)) (cd : CardVol)
    (hcells : ∀ c ∈ row, cellNonnegOK c) (hcd : pyDecNonneg cd.volume) :
    pyDecNonneg (parse_card_row row cd).volume := by
  have hnet : ∀ cd2 : CardVol, pyDecNonneg cd2.volume →
      pyDecNonneg (cardRowNet row cd2).volume := by
    intro cd2 h2
    rw [cardRowNet]
    by_cases h6 : (row.length > 6 && cellTruthy (row.getD 6 Option.none)) = true
    · rw [if_pos h6, cardRowNetApply]
      rcases hz : pyNeZero (safe_decimal (cellPy (row.getD 6 Option.none)) (.fin 0)) with _ | b
      · exact h2
      · cases b
        · exact h2
        · have hand := h6
          rw [Bool.and_eq_true] at hand
          exact cellNonnegOK_nonneg _ (hcells _ (getD_mem (of_decide_eq_true hand.1)))
    · rw [if_neg h6]
      exact h2
  have hcn : ∀ cd2 : CardVol, pyDecNonneg cd2.volume →
      pyDecNonneg (cardRowCountNet row cd2).volume := by
    intro cd2 h2
    rw [cardRowCountNet]
    by_cases h1 : (row.length > 1 && cellTruthy (row.getD 1 Option.none)) = true
    · rw [if_pos h1]
      exact hnet _ h2
    · rw [if_neg h1]
      exact hnet _ h2
  rw [parse_card_row]
  by_cases h2 : (row.length > 2 && cellTruthy (row.getD 2 Option.none)) = true
  · rw [if_pos h2]
    have hand := h2
    rw [Bool.and_eq_true] at hand
    have hcell := cellNonnegOK_nonneg _ (hcells _ (getD_mem (of_decide_eq_true hand.1)))
    rcases ha : pyAdd cd.volume (safe_decimal (cellPy (row.getD 2 Option.none)) (.fin 0))
        with _ | v
    · exact hcd
    · exact hcn _ (pyAdd_nonneg _ _ v hcd hcell ha)
  · rw [if_neg h2]
    exact hcn cd hcd

/-- The tabular fallback preserves non-negative volumes on rows whose
cells all pass `cellNonnegOK`. -/
theorem cardTableStep_nonneg (cv : CardVolumes) (row : List (Option String))
    (hcells : ∀ c ∈ row, cellNonnegOK c)
    (h : ∀ n, pyDecNonneg (cvGet cv n).volume) :
    ∀ n, pyDecNonneg (cvGet (cardTableStep cv row) n).volume := by
  intro n
  rw [cardTableStep]
  rcases hm : cardRowNetwork row with _ | m
  · exact h n
  · rw [cvGet_cvSet]
    by_cases hmn : n = m
    · rw [if_pos hmn]
      exact parse_card_row_nonneg row (cvGet cv m) hcells (h m)
    · rw [if_neg hmn]
      exact h n

/-- A result of `_extract_amount_from_row` compared strictly greater
than zero. -/
theorem extract_amount_from_row_aux_gt :
    ∀ (l : List (Option String)) (a : PyDec), extract_amount_from_row_aux l = some a →
      pyGt a (.fin 0) = some true := by
  intro l
  induction l with
  | nil => intro a h; exact Option.noConfusion h
  | cons c rest ih =>
      intro a h
      rw [extract_amount_from_row_aux] at h
      by_cases hc : cellTruthy c = true
      · rw [if_pos hc] at h
        rcases hg : pyGt (safe_decimal (cellPy c) (.fin 0)) (.fin 0) with _ | b
        · rw [hg] at h
          exact Option.noConfusion h
        · rw [hg] at h
          cases b
          · exact ih a h
          · injection h with h
            rw [← h]
            exact hg
      · rw [if_neg hc] at h
        exact ih a h

/-- A result of `_extract_amount_from_row` compares strictly greater
than zero. -/
theorem extract_amount_from_row_gt (row : List (Option String)) (a : PyDec)
    (h : extract_amount_from_row row = some a) : pyGt a (.fin 0) = some true :=
  extract_amount_from_row_aux_gt row.reverse a h

/-- The fee line scan preserves non-negative fee totals. -/
theorem feeLineStep_nonneg (f : Fees) (line : String)
    (h : pyDecNonneg f.interchange_fees ∧ pyDecNonneg f.assessment_fees ∧
      pyDecNonneg f.processing_fees ∧ pyDecNonneg f.monthly_fees ∧
      pyDecNonneg f.other_fees) :
    pyDecNonneg (feeLineStep f line).interchange_fees ∧
      pyDecNonneg (feeLineStep f line).assessment_fees ∧
      pyDecNonneg (feeLineStep f line).processing_fees ∧
      pyDecNonneg (feeLineStep f line).monthly_fees ∧
      pyDecNonneg (feeLineStep f line).other_fees := by
  obtain ⟨h1, h2, h3, h4, h5⟩ := h
  have hamt : ∀ a : PyDec, extract_amount_from_line line = some a → pyDecNonneg a := by
    intro a ha
    obtain ⟨q, hq, hv⟩ := extract_amount_from_line_fin line a ha
    rw [hv]
    exact hq
  simp only [feeLineStep]
  repeat' split
  all_goals refine ⟨?_, ?_, ?_, ?_, ?_⟩
  all_goals first
    | exact h1
    | exact h2
    | exact h3
    | exact h4
    | exact h5
    | exact pyAddSat_nonneg _ _ h1 (hamt _ (by assumption))
    | exact pyAddSat_nonneg _ _ h2 (hamt _ (by assumption))
    | exact pyAddSat_nonneg _ _ h3 (hamt _ (by assumption))
    | exact pyAddSat_nonneg _ _ h4 (hamt _ (by assumption))
    | exact pyAddSat_nonneg _ _ h5 (hamt _ (by assumption))
    | exact pyAddSat_nonneg _ _ h2 (pyHalf_nonneg _ (hamt _ (by assumption)))
    | exact pyAddSat_nonneg _ _ h3 (pyHalf_nonneg _ (hamt _ (by assumption)))

/-- The tabular fee scan preserves non-negative fee totals
(unconditionally: the extracted row amount compares strictly positive,
hence is non-negative). -/
theorem feeTableStep_nonneg (f : Fees) (row : List (Option String))
    (h : pyDecNonneg f.interchange_fees ∧ pyDecNonneg f.assessment_fees ∧
      pyDecNonneg f.processing_fees ∧ pyDecNonneg f.monthly_fees ∧
      pyDecNonneg f.other_fees) :
    pyDecNonneg (feeTableStep f row).interchange_fees ∧
      pyDecNonneg (feeTableStep f row).assessment_fees ∧
      pyDecNonneg (feeTableStep f row).processing_fees ∧
      pyDecNonneg (feeTableStep f row).monthly_fees ∧
      pyDecNonneg (feeTableStep f row).other_fees := by
  obtain ⟨h1, h2, h3, h4, h5⟩ := h
  rw [feeTableStep]
  by_cases hl : row.length < 2
  · rw [if_pos hl]
    exact ⟨h1, h2, h3, h4, h5⟩
  · rw [if_neg hl]
    by_cases hm : strContains (rowText row) "INTERCHANGE FEES TOTAL" = true
    · rw [if_pos hm]
      split
      · rename_i a hE
        have ha := pyGtZero_nonneg a (extract_amount_from_row_gt row a hE)
        by_cases hb : pyBool a = true
        · rw [if_pos hb]
          exact ⟨pyMaxT_nonneg _ _ h1 ha, h2, h3, h4, h5⟩
        · rw [if_neg hb]
          exact ⟨h1, h2, h3, h4, h5⟩
      · exact ⟨h1, h2, h3, h4, h5⟩
    · rw [if_neg hm]
      exact ⟨h1, h2, h3, h4, h5⟩

/-- The totals text scan preserves non-negative totals. -/
theorem totalsLineStep_nonneg (t : Totals) (line : String)
    (h : pyDecNonneg t.total_volume ∧ pyDecNonneg t.total_fees) :
    pyDecNonneg (totalsLineStep t line).total_volume ∧
      pyDecNonneg (totalsLineStep t line).total_fees := by
  have hvol : pyDecNonneg (totalsVolumeLine t line).total_volume ∧
      pyDecNonneg (totalsVolumeLine t line).total_fees := by
    rw [totalsVolumeLine]
    repeat' split
    all_goals refine ⟨?_, ?_⟩
    all_goals first
      | exact h.1
      | exact h.2
      | (rename_i c a hs
         obtain ⟨q, hq, hv⟩ := searchCard_fin _ line c a hs
         rw [hv]
         exact hq)
  rw [totalsLineStep, totalsFeesLine]
  repeat' split
  all_goals refine ⟨?_, ?_⟩
  all_goals first
    | exact hvol.1
    | exact hvol.2
    | (rename_i a ha hb
       obtain ⟨q, hq, hv⟩ := extract_amount_from_line_fin line a ha
       rw [hv]
       exact hq)

/-- The totals text scan keeps the volume off the specials. -/
theorem totalsLineStep_fin (t : Totals) (line : String)
    (h : pyIsFin t.total_volume = true) :
    pyIsFin (totalsLineStep t line).total_volume = true := by
  have hvol : pyIsFin (totalsVolumeLine t line).total_volume = true := by
    rw [totalsVolumeLine]
    repeat' split
    all_goals first
      | exact h
      | (rename_i c a hs
         obtain ⟨q, hq, hv⟩ := searchCard_fin _ line c a hs
         show pyIsFin (safe_decimal (.str a) (.fin 0)) = true
         rw [hv]
         rfl)
  rw [totalsLineStep, totalsFeesLine]
  repeat' split
  all_goals exact hvol

/-- The tabular totals fallback preserves non-negative totals on rows
whose cells all pass `cellNonnegOK`. -/
theorem totalsTableStep_nonneg (t : Totals) (row : List (Option String))
    (hcells : ∀ c ∈ row, cellNonnegOK c)
    (h : pyDecNonneg t.total_volume ∧ pyDecNonneg t.total_fees) :
    pyDecNonneg (totalsTableStep t row).total_volume ∧
      pyDecNonneg (totalsTableStep t row).total_fees := by
  have hnet : pyDecNonneg (totalsRowNet t row).total_volume ∧
      pyDecNonneg (totalsRowNet t row).total_fees := by
    rw [totalsRowNet]
    repeat' split
    all_goals refine ⟨?_, ?_⟩
    all_goals first
      | exact h.1
      | exact h.2
      | exact cellNonnegOK_nonneg _ (hcells _ (getD_mem (by
          have hand : (decide (row.length > 6) && cellTruthy (row.getD 6 Option.none)) = true :=
            by assumption
          rw [Bool.and_eq_true] at hand
          exact of_decide_eq_true hand.1)))
  rw [totalsTableStep]
  by_cases he : row.isEmpty = true
  · rw [if_pos he]
    exact h
  · rw [if_neg he, totalsRowFees]
    repeat' split
    all_goals refine ⟨?_, ?_⟩
    all_goals first
      | exact hnet.1
      | exact hnet.2
      | exact cellNonnegOK_nonneg _ (hcells _ (getD_mem (by
          have hand : (decide (row.length > 1) &&
              cellTruthy (row.getD (row.length - 1) Option.none)) = true := by assumption
          rw [Bool.and_eq_true] at hand
          have := of_decide_eq_true hand.1
          omega)))

/-- Rows failing the tabular fee guard leave the fee dict unchanged. -/
theorem feeTableStep_nomatch (f : Fees) (row : List (Option String))
    (h : feeRowMatch row = false) :
    feeTableStep f row = f := by
  rw [feeRowMatch, Bool.and_eq_false_iff] at h
  rw [feeTableStep]
  rcases h with h | h
  · rw [if_pos]
    simp only [Bool.not_eq_false'] at h
    exact of_decide_eq_true h
  · by_cases hl : row.length < 2
    · rw [if_pos hl]
    · rw [if_neg hl, if_neg]
      intro hc
      rw [h] at hc
      exact Bool.noConfusion hc

/-- The tabular fee scan can only change the interchange entry. -/
theorem feeTableStep_others (f : Fees) (row : List (Option String)) :
    (feeTableStep f row).assessment_fees = f.assessment_fees ∧
    (feeTableStep f row).processing_fees = f.processing_fees ∧
    (feeTableStep f row).monthly_fees = f.monthly_fees ∧
    (feeTableStep f row).other_fees = f.other_fees := by
  rw [feeTableStep]
  by_cases h1 : row.length < 2
  · rw [if_pos h1]; exact ⟨rfl, rfl, rfl, rfl⟩
  · rw [if_neg h1]
    by_cases h2 : strContains (rowText row) "INTERCHANGE FEES TOTAL" = true
    · rw [if_pos h2]
      split
      · rename_i a hE
        by_cases h3 : pyBool a = true
        · rw [if_pos h3]
          exact ⟨rfl, rfl, rfl, rfl⟩
        · rw [if_neg h3]
          exact ⟨rfl, rfl, rfl, rfl⟩
      · exact ⟨rfl, rfl, rfl, rfl⟩
    · rw [if_neg h2]; exact ⟨rfl, rfl, rfl, rfl⟩

/-- A matching row rewrites interchange by Python `max` with its
extracted amount (which compares strictly positive, hence is truthy
and not a NaN). -/
theorem feeTableStep_match (f : Fees) (row : List (Option String)) (a : PyDec)
    (h : feeRowMatch row = true) (ha : extract_amount_from_row row = some a) :
    (feeTableStep f row).interchange_fees = pyMaxT f.interchange_fees a := by
  rw [feeRowMatch, Bool.and_eq_true] at h
  have hlen : ¬(row.length < 2) := by
    have h1 := h.1
    rw [Bool.not_eq_true'] at h1
    exact of_decide_eq_false h1
  have hb : pyBool a = true := pyGtZero_truthy a (extract_amount_from_row_gt row a ha)
  rw [feeTableStep, if_neg hlen, if_pos h.2, ha]
  show (if pyBool a = true then
      { f with interchange_fees := pyMaxT f.interchange_fees a } else f).interchange_fees =
    pyMaxT f.interchange_fees a
  rw [if_pos hb]

/-- C4: currency parsing strips the dollar sign and thousands
separators and converts parenthesised values to negatives:
`"$1,234.56"`, `"1234.56"` and `"(1,234.56)"` parse to the exact
rationals `1234.56`, `1234.56` and `-1234.56` (no floating-point
rounding). -/
theorem c4_currency_roundtrip :
    safe_decimal (.str "$1,234.56") (.fin 0) = .fin ((123456 : ℚ) / 100) ∧
    safe_decimal (.str "1234.56") (.fin 0) = .fin ((123456 : ℚ) / 100) ∧
    safe_decimal (.str "(1,234.56)") (.fin 0) = .fin (-((123456 : ℚ) / 100)) := by
  refine ⟨?_, ?_, ?_⟩
  · exact safe_decimal_finEval "$1,234.56" (.fin 0) 123456 2 _ (by decide) (by norm_num)
  · exact safe_decimal_finEval "1234.56" (.fin 0) 123456 2 _ (by decide) (by norm_num)
  · exact safe_decimal_finEval "(1,234.56)" (.fin 0) (-123456) 2 _ (by decide) (by norm_num)

/-- C8: the currency-conversion helper `_safe_decimal` is total — it
returns the default on `None` and on any string whose symbol-stripped
form fails the decimal numeric-string grammar (which includes exponent
forms, NaN and infinity keywords, and underscores), the converted
value (possibly NaN or infinite) on any string that parses, and the
exact value on any number; no input makes it raise.  The
character-level model is faithful on ASCII strings, hence the domain
hypothesis. -/
theorem c8_safe_decimal_total (s : String) (q : ℚ) (d : PyDec)
    (hascii : ∀ c ∈ s.data, c.toNat < 128) :
    safe_decimal PyVal.none d = d ∧
    (pyDecOfString (stripCurrency s) = Option.none → safe_decimal (.str s) d = d) ∧
    (∀ r, pyDecOfString (stripCurrency s) = some r → safe_decimal (.str s) d = r) ∧
    safe_decimal (.num q) d = .fin q := by
  refine ⟨rfl, ?_, ?_, rfl⟩
  · intro h
    rw [safe_decimal_str, h]
    rfl
  · intro r h
    rw [safe_decimal_str, h]
    rfl

/-- Witness for C8: the malformed string `"12ab"` defaults, `"$3.50"`
parses to 3.5, the exponent form `"1e5"` parses to 100000 (not the
default), and `"nan"` converts to a quiet NaN. -/
theorem c8_witness :
    safe_decimal (.str "12ab") (.fin 0) = .fin 0 ∧
    safe_decimal (.str "$3.50") (.fin 0) = .fin ((35 : ℚ) / 10) ∧
    safe_decimal (.str "1e5") (.fin 0) = .fin ((100000 : ℚ)) ∧
    safe_decimal (.str "nan") (.fin 0) = .nan false := by
  refine ⟨?_, ?_, ?_, ?_⟩
  · exact (c8_safe_decimal_total "12ab" 0 (.fin 0) (by decide)).2.1 (by decide)
  · refine (c8_safe_decimal_total "$3.50" 0 (.fin 0) (by decide)).2.2.1 _ ?_
    rw [pyDecOfString, show parseNumTok ((pyStrip (stripCurrency "$3.50").data).filter
      (fun c => c ≠ '_')) = some (.fin 350 (-((2 : ℕ) : ℤ))) from by decide]
    show some (tokVal (NumTok.fin 350 (-((2 : ℕ) : ℤ)))) = some (PyDec.fin ((35 : ℚ) / 10))
    rw [show tokVal (NumTok.fin 350 (-((2 : ℕ) : ℤ))) =
      PyDec.fin (decValue 350 (-((2 : ℕ) : ℤ))) from rfl, decValue_negNatCast]
    norm_num
  · refine (c8_safe_decimal_total "1e5" 0 (.fin 0) (by decide)).2.2.1 _ ?_
    rw [pyDecOfString, show parseNumTok ((pyStrip (stripCurrency "1e5").data).filter
      (fun c => c ≠ '_')) = some (.fin 1 ((5 : ℕ) : ℤ)) from by decide]
    show some (tokVal (NumTok.fin 1 ((5 : ℕ) : ℤ))) = some (PyDec.fin ((100000 : ℚ)))
    rw [show tokVal (NumTok.fin 1 ((5 : ℕ) : ℤ)) =
      PyDec.fin (decValue 1 ((5 : ℕ) : ℤ)) from rfl, decValue_natCast]
    norm_num
  · exact (c8_safe_decimal_total "nan" 0 (.fin 0) (by decide)).2.2.1 _ (by decide)

/-- C1 counterexample: an extraction result with only the merchant
name populated (all-zero volume and fee dicts present, zero totals)
scores 70, not the claimed 20 — `_calculate_confidence` awards the 30
and 20 points for the `card_volumes` and `fees` dicts being truthy
(non-empty), not for any value being non-zero. -/
theorem c1_counterexample :
    calculate_confidence ⟨"ACME LLC", Option.none, Option.none, some initCardVolumes,
      some initFees, some ⟨.fin 0, 0, .fin 0⟩⟩ = 70 ∧ (70 : ℚ) ≠ 20 := by
  constructor
  · norm_num +decide [calculate_confidence, optTruthy, pyBool]
  · norm_num

/-- C1 (amended): the confidence is the capped sum of 20 for a truthy
merchant name, 20/10/0 for the period bounds, 30 whenever the
`card_volumes` dict is present (its five always-present keys make it
truthy regardless of the stored amounts), 20 likewise for `fees`, and
10 for a truthy `total_volume`; a merchant-name-only result therefore
scores 70, an all-populated result scores 100, and no result exceeds
100. -/
theorem c1_amended (d : ExtractedData) :
    calculate_confidence d ≤ 100 ∧
    (d.merchant_name ≠ "" → d.period_start = Option.none → d.period_end = Option.none →
      d.card_volumes.isSome = true → d.fees.isSome = true →
      (∀ t, d.totals = some t → pyBool t.total_volume = false) →
      calculate_confidence d = 70) ∧
    (d.merchant_name ≠ "" → optTruthy d.period_start = true → optTruthy d.period_end = true →
      d.card_volumes.isSome = true → d.fees.isSome = true →
      (∃ t, d.totals = some t ∧ pyBool t.total_volume = true) →
      calculate_confidence d = 100) ∧
    (∀ cv1 cv2 f1 f2,
      calculate_confidence { d with card_volumes := some cv1, fees := some f1 } =
      calculate_confidence { d with card_volumes := some cv2, fees := some f2 }) := by
  refine ⟨?_, ?_, ?_, ?_⟩
  · rw [calculate_confidence]
    have : ∀ a b : ℚ, min a b ≤ b := fun a b => min_le_right a b
    exact this _ _
  · intro h1 h2 h3 h4 h5 h6
    rw [calculate_confidence]
    rcases ht : d.totals with _ | t
    · simp [h1, h2, h3, h4, h5, optTruthy]
      norm_num
    · have := h6 t ht
      simp [h1, h2, h3, h4, h5, this, optTruthy]
      norm_num
  · rintro h1 h2 h3 h4 h5 ⟨t, ht, htv⟩
    rw [calculate_confidence]
    simp [h1, h2, h3, h4, h5, ht, htv]
    norm_num
  · intro cv1 cv2 f1 f2
    rw [calculate_confidence, calculate_confidence]
    simp

/-- Witness for C1 (amended) at a merchant-only and an all-populated
result. -/
theorem c1_witness :
    calculate_confidence ⟨"ACME LLC", Option.none, Option.none, some initCardVolumes,
      some initFees, some ⟨.fin 0, 0, .fin 0⟩⟩ = 70 ∧
    calculate_confidence ⟨"ACME LLC", some "2024-06-01", some "2024-06-30",
      some initCardVolumes, some initFees, some ⟨.fin 100, 5, .fin 2⟩⟩ = 100 := by
  constructor
  · exact (c1_amended _).2.1 (by decide) rfl rfl rfl rfl
      (by intro t ht; cases ht; decide)
  · exact (c1_amended _).2.2.1 (by decide) rfl rfl rfl rfl
      ⟨⟨.fin 100, 5, .fin 2⟩, rfl, by decide⟩

/-- C3 (amended): when no processor signature matches, the factory
returns no extractor and the orchestrator marks the record FAILED with
confidence 0 — but the stored reason is the fixed string
`unsupportedMsg`; the scanned-text prefix goes only to the log, never
into the reason. -/
theorem c3_amended (t : String) (cd : TopData) (rec : StatementRecord)
    (h : detect_processor_keyword t = .unknown) :
    create_extractor t = Option.none ∧
    process_uploaded_statement true t cd rec =
      (false, { rec with
                  status := "FAILED"
                  extraction_notes := unsupportedMsg
                  extraction_confidence := 0 }) := by
  have hce : create_extractor t = Option.none := by rw [create_extractor, h]
  refine ⟨hce, ?_⟩
  rw [process_uploaded_statement]
  simp only [Bool.not_true, if_false, extract_from_file, hce]
  simp

/-- Witness for C3 (amended) on a concrete unrecognised text. -/
theorem c3_witness :
    create_extractor "zz mystery statement zz" = Option.none ∧
    process_uploaded_statement true "zz mystery statement zz" ⟨true, Option.none, 55⟩
        ⟨"PENDING", "", 0, false⟩ =
      (false, ⟨"FAILED", unsupportedMsg, 0, false⟩) := by
  exact c3_amended "zz mystery statement zz" ⟨true, Option.none, 55⟩ ⟨"PENDING", "", 0, false⟩
    (by decide)

/-- C3 counterexample: for the unmatched text `"zz mystery statement
zz"` the stored reason is the fixed message, which contains no
non-empty prefix of the scanned text (every such prefix starts with
`z`, a letter the message does not contain). -/
theorem c3_counterexample :
    (process_uploaded_statement true "zz mystery statement zz" ⟨true, Option.none, 55⟩
        ⟨"PENDING", "", 0, false⟩).2.extraction_notes = unsupportedMsg ∧
    (strContains unsupportedMsg "z" || strContains unsupportedMsg "zz") = false := by
  constructor
  · rfl
  · decide

/-- C10: first-page text mentioning clover, square, stripe or moneris
(without a Chase signature) is recognised by the keyword chain but
still yields no extractor, and an extractor is created exactly when
the Chase signature keywords appear. -/
theorem c10_unimplemented (t : String) :
    ((strContains (pyLower t) "chase paymentech" || strContains (pyLower t) "j.p.morgan") = false →
      (strContains (pyLower t) "clover" || strContains (pyLower t) "square" ||
        strContains (pyLower t) "stripe" || strContains (pyLower t) "moneris") = true →
      detect_processor_keyword t ≠ .chase ∧ detect_processor_keyword t ≠ .unknown ∧
      create_extractor t = Option.none) ∧
    ((create_extractor t).isSome =
      (strContains (pyLower t) "chase paymentech" || strContains (pyLower t) "j.p.morgan")) := by
  constructor
  · intro hchase hkw
    rw [detect_processor_keyword] at *
    rw [create_extractor, detect_processor_keyword]
    simp only [hchase, if_false] at *
    by_cases h1 : strContains (pyLower t) "clover" = true
    · simp [h1]
    · simp only [h1, if_false] at *
      by_cases h2 : strContains (pyLower t) "square" = true
      · simp [h2]
      · simp only [h2, if_false] at *
        by_cases h3 : strContains (pyLower t) "stripe" = true
        · simp [h3]
        · simp only [h3, if_false] at *
          by_cases h4 : strContains (pyLower t) "moneris" = true
          · simp [h4]
          · simp only [h1, h2, h3, h4] at hkw
            simp at hkw
  · have h1 : (create_extractor t).isSome = decide (detect_processor_keyword t = .chase) := by
      rw [create_extractor]; cases detect_processor_keyword t <;> rfl
    rw [h1, detect_processor_keyword]
    by_cases hchase : (strContains (pyLower t) "chase paymentech" ||
        strContains (pyLower t) "j.p.morgan") = true
    · simp [hchase]
    · simp only [Bool.not_eq_true] at hchase
      simp only [hchase, Bool.false_eq_true, if_false]
      by_cases h1 : strContains (pyLower t) "clover" = true
      · simp [h1]
      · by_cases h2 : strContains (pyLower t) "square" = true
        · simp [h1, h2]
        · by_cases h3 : strContains (pyLower t) "stripe" = true
          · simp [h1, h2, h3]
          · by_cases h4 : strContains (pyLower t) "moneris" = true
            · simp [h1, h2, h3, h4]
            · simp [h1, h2, h3, h4]

/-- Witness for C10 on a Clover-branded text and a Chase-branded
text. -/
theorem c10_witness :
    detect_processor_keyword "Your Clover statement" ≠ .chase ∧
    detect_processor_keyword "Your Clover statement" ≠ .unknown ∧
    create_extractor "Your Clover statement" = Option.none ∧
    (create_extractor "chase paymentech notice").isSome = true := by
  refine ⟨?_, ?_, ?_, ?_⟩
  · exact ((c10_unimplemented "Your Clover statement").1 (by decide) (by decide)).1
  · exact ((c10_unimplemented "Your Clover statement").1 (by decide) (by decide)).2.1
  · exact ((c10_unimplemented "Your Clover statement").1 (by decide) (by decide)).2.2
  · rw [(c10_unimplemented "chase paymentech notice").2]; decide

/-- C7 counterexample: with the service unavailable (`force_ocr` left
at its default `True`) and a primary text of fewer than 100
characters, acquisition returns the short primary text but appends no
diagnostic at all — the claimed "fallback was unavailable" note is
absent. -/
theorem c7_counterexample :
    ("SHORT TEXT".length < 100) ∧
    extract_full_text true ⟨false, .ok "ignored"⟩ [⟨some "SHORT TEXT", []⟩] =
      ("SHORT TEXT", []) := by
  constructor
  · decide
  · rfl

/-- C7 (amended): acquisition is total by construction and always
returns the primary text when the fallback cannot be used, but the
unavailability diagnostic is only recorded on the `force_ocr = false`
path; when `force_ocr` is true an unavailable service is skipped with
no note, while a service exception is recorded on both paths. -/
theorem c7_acquisition_amended (svc : OcrService) (pages : List Page) (m : String) :
    (svc.installed = false →
      extract_full_text true svc pages = (primaryText pages, [])) ∧
    (svc.installed = false →
      (String.mk (pyStrip (primaryText pages).data)).length < 100 →
      extract_full_text false svc pages =
        (primaryText pages, ["Limited text detected but alternative extraction not available"])) ∧
    (svc.installed = true → svc.outcome = .failure m →
      extract_full_text true svc pages =
        (primaryText pages, ["LLM extraction failed: " ++ m ++ ", using pdfplumber"])) ∧
    (svc.installed = true → svc.outcome = .failure m →
      (String.mk (pyStrip (primaryText pages).data)).length < 100 →
      extract_full_text false svc pages =
        (primaryText pages, ["Alternative extraction failed: " ++ m])) := by
  refine ⟨?_, ?_, ?_, ?_⟩
  · intro h
    rw [extract_full_text, h]
    simp
  · intro h hshort
    rw [extract_full_text, h]
    simp [hshort]
    simpa using hshort
  · intro h hout
    rw [extract_full_text, h, hout]
    simp
  · intro h hout hshort
    rw [extract_full_text, h, hout]
    simp [hshort]
    simpa using hshort

/-- Witness for C7 at concrete services and a short one-page
document. -/
theorem c7_witness :
    extract_full_text true ⟨false, .ok "xyz"⟩ [⟨some "hi", []⟩] = ("hi", []) ∧
    extract_full_text false ⟨false, .ok "xyz"⟩ [⟨some "hi", []⟩] =
      ("hi", ["Limited text detected but alternative extraction not available"]) ∧
    extract_full_text true ⟨true, .failure "boom"⟩ [⟨some "hi", []⟩] =
      ("hi", ["LLM extraction failed: boom, using pdfplumber"]) ∧
    extract_full_text false ⟨true, .failure "boom"⟩ [⟨some "hi", []⟩] =
      ("hi", ["Alternative extraction failed: boom"]) := by
  refine ⟨?_, ?_, ?_, ?_⟩
  · exact (c7_acquisition_amended ⟨false, .ok "xyz"⟩ [⟨some "hi", []⟩] "boom").1 rfl
  · exact (c7_acquisition_amended ⟨false, .ok "xyz"⟩ [⟨some "hi", []⟩] "boom").2.1 rfl (by decide)
  · exact (c7_acquisition_amended ⟨true, .failure "boom"⟩ [⟨some "hi", []⟩] "boom").2.2.1 rfl rfl
  · exact (c7_acquisition_amended ⟨true, .failure "boom"⟩ [⟨some "hi", []⟩] "boom").2.2.2 rfl rfl
      (by decide)

/-- C5: on a document whose line scan finds all-zero volumes and whose
tables contain exactly one row classified as network `n`, if that row
has a truthy column 6 whose conversion is the non-zero finite net
amount `q`, the resulting volume for `n` is that net amount (the gross
column-2 figure is overridden); the gross cell, when consulted, must
not be a signaling NaN, which would abort the row before the net
clause. -/
theorem c5_net_over_gross (fullText : String) (pages : List Page) (n : Network)
    (r : List (Option String)) (q : ℚ)
    (hline : allVolumesZero (extract_card_volumes_lines fullText) = true)
    (huniq : (tableRows pages).filter (fun row => decide (cardRowNetwork row = some n)) = [r])
    (hlen : 6 < r.length) (htru : cellTruthy (r.getD 6 Option.none) = true)
    (hns : (r.length > 2 && cellTruthy (r.getD 2 Option.none)) = true →
      safe_decimal (cellPy (r.getD 2 Option.none)) (.fin 0) ≠ .nan true)
    (hq : netCell r = .fin q) (hnz : q ≠ 0) :
    (cvGet (extract_card_volumes fullText pages) n).volume = .fin q := by
  have hov : rowOverrideB r = true := by
    rw [rowOverrideB, hq, pyNeZero_fin_true q hnz]
    simp only [Bool.and_eq_true, decide_eq_true_eq]
    exact ⟨⟨hlen, htru⟩, rfl⟩
  rw [extract_card_volumes, if_pos hline]
  rw [foldl_proj_single cardTableStep (fun cv => cvGet cv n)
    (fun row => decide (cardRowNetwork row = some n)) (fun cd row => parse_card_row row cd)
    (fun a b hb => cardTableStep_ne a b n hb)
    (fun a b hb => cardTableStep_eq a b n hb)
    (tableRows pages) (extract_card_volumes_lines fullText) r huniq]
  have hv0 : (cvGet (extract_card_volumes_lines fullText) n).volume = .fin 0 :=
    allVolumesZero_get _ hline n
  have heta : cvGet (extract_card_volumes_lines fullText) n =
      ⟨.fin 0, (cvGet (extract_card_volumes_lines fullText) n).count⟩ := by
    rw [← hv0]
  rw [heta, parse_card_row_over r 0 (cvGet (extract_card_volumes_lines fullText) n).count
    hns hov, hq]

/-- Witness for C5 on the spec's table-only scenario row. -/
theorem c5_witness :
    (cvGet (extract_card_volumes ""
      [⟨Option.none, [[[some "VISA", some "98", some "73239.99", some "0", some "0.00",
        some "98", some "73100.00", some "745.92"]]]⟩]) Network.visa).volume = .fin 73100 := by
  have h := c5_net_over_gross ""
    [⟨Option.none, [[[some "VISA", some "98", some "73239.99", some "0", some "0.00",
      some "98", some "73100.00", some "745.92"]]]⟩] Network.visa
    [some "VISA", some "98", some "73239.99", some "0", some "0.00",
      some "98", some "73100.00", some "745.92"] 73100
    (by decide) (by decide) (by decide) (by decide)
    (by
      intro _
      show safe_decimal (.str "73239.99") (.fin 0) ≠ .nan true
      rw [safe_decimal_finEval "73239.99" (.fin 0) 7323999 2 ((7323999 : ℚ) / 10 ^ 2)
        (by decide) rfl]
      intro hc
      exact PyDec.noConfusion hc)
    (by
      show safe_decimal (.str "73100.00") (.fin 0) = .fin 73100
      exact safe_decimal_finEval "73100.00" (.fin 0) 7310000 2 73100 (by decide) (by norm_num))
    (by norm_num)
  exact h

/-- C2 counterexample: a table row whose gross-sales cell is the
parenthesised credit `(100.00)` yields a Visa volume of -100 — the
parser surfaces a negative value in a public volume field. -/
theorem c2_counterexample :
    (extract_card_volumes ""
        [⟨Option.none, [[[some "VISA", some "1", some "(100.00)"]]]⟩]).visa.volume =
      .fin (-100) ∧
    ¬ pyDecNonneg (extract_card_volumes ""
        [⟨Option.none, [[[some "VISA", some "1", some "(100.00)"]]]⟩]).visa.volume := by
  have hval : safe_decimal (.str "(100.00)") (.fin 0) = .fin (-100) :=
    safe_decimal_finEval "(100.00)" (.fin 0) (-10000) 2 (-100) (by decide) (by norm_num)
  have key : (extract_card_volumes ""
      [⟨Option.none, [[[some "VISA", some "1", some "(100.00)"]]]⟩]).visa =
      parse_card_row [some "VISA", some "1", some "(100.00)"] ⟨.fin 0, 0⟩ := rfl
  have hrow : parse_card_row [some "VISA", some "1", some "(100.00)"] ⟨.fin 0, 0⟩ =
      ⟨.fin (0 + grossContrib [some "VISA", some "1", some "(100.00)"]),
        0 + countContrib [some "VISA", some "1", some "(100.00)"]⟩ :=
    parse_card_row_no_over _ 0 0
      (by
        intro _
        show pyIsFin (safe_decimal (.str "(100.00)") (.fin 0)) = true
        rw [hval]
        rfl)
      (by decide)
  have hg : grossContrib [some "VISA", some "1", some "(100.00)"] = -100 := by
    rw [grossContrib, if_pos (by decide)]
    show pyFinVal (safe_decimal (.str "(100.00)") (.fin 0)) = -100
    rw [hval]
    rfl
  constructor
  · rw [key, hrow]
    show PyDec.fin (0 + grossContrib [some "VISA", some "1", some "(100.00)"]) = .fin (-100)
    rw [hg]
    norm_num
  · rw [key, hrow]
    show ¬ pyDecNonneg (PyDec.fin (0 + grossContrib [some "VISA", some "1", some "(100.00)"]))
    rw [hg]
    show ¬ ((0 : ℚ) ≤ 0 + -100)
    norm_num

/-- C2 (amended): every fee category is non-negative on every document
(line amounts are unsigned regex captures and the tabular fallback
only accepts amounts comparing strictly positive, possibly
`+Infinity`); and when every table cell is ASCII and converts to a
non-negative finite Decimal, every card-network volume and the
volume/fee totals are non-negative as well — but a credit shown as a
parenthesised (hence negative-parsing) cell IS surfaced as a negative
volume, as the counterexample shows. -/
theorem c2_nonneg_amended (fullText : String) (pages : List Page) :
    (pyDecNonneg (extract_fees fullText pages).interchange_fees ∧
      pyDecNonneg (extract_fees fullText pages).assessment_fees ∧
      pyDecNonneg (extract_fees fullText pages).processing_fees ∧
      pyDecNonneg (extract_fees fullText pages).monthly_fees ∧
      pyDecNonneg (extract_fees fullText pages).other_fees) ∧
    ((∀ row ∈ tableRows pages, ∀ c ∈ row, cellNonnegOK c) →
      (∀ n, pyDecNonneg (cvGet (extract_card_volumes fullText pages) n).volume) ∧
      pyDecNonneg (extract_totals fullText pages).total_volume ∧
      pyDecNonneg (extract_totals fullText pages).total_fees) := by
  constructor
  · rw [extract_fees]
    have hlf : pyDecNonneg (extract_fees_lines fullText).interchange_fees ∧
        pyDecNonneg (extract_fees_lines fullText).assessment_fees ∧
        pyDecNonneg (extract_fees_lines fullText).processing_fees ∧
        pyDecNonneg (extract_fees_lines fullText).monthly_fees ∧
        pyDecNonneg (extract_fees_lines fullText).other_fees := by
      rw [extract_fees_lines]
      exact foldl_induct feeLineStep (pySplitLines fullText) initFees
        ⟨le_refl 0, le_refl 0, le_refl 0, le_refl 0, le_refl 0⟩
        (fun x _ b hb => feeLineStep_nonneg b x hb)
    exact foldl_induct feeTableStep (tableRows pages) (extract_fees_lines fullText) hlf
      (fun row _ b hb => feeTableStep_nonneg b row hb)
  · intro hcells
    have hlines : ∀ n, pyDecNonneg (cvGet (extract_card_volumes_lines fullText) n).volume := by
      rw [extract_card_volumes_lines]
      exact foldl_induct cardLineStep (pySplitLines fullText) initCardVolumes
        (fun n => by cases n <;> exact le_refl 0)
        (fun x _ b hb => cardLineStep_nonneg b x hb)
    refine ⟨?_, ?_⟩
    · rw [extract_card_volumes]
      by_cases hz : allVolumesZero (extract_card_volumes_lines fullText) = true
      · rw [if_pos hz]
        exact foldl_induct cardTableStep (tableRows pages) (extract_card_volumes_lines fullText)
          hlines (fun row hrow b hb => cardTableStep_nonneg b row (hcells row hrow) hb)
      · rw [if_neg hz]
        exact hlines
    · have hlt : pyDecNonneg ((pySplitLines fullText).foldl totalsLineStep
          (⟨.fin 0, 0, .fin 0⟩ : Totals)).total_volume ∧
          pyDecNonneg ((pySplitLines fullText).foldl totalsLineStep
            (⟨.fin 0, 0, .fin 0⟩ : Totals)).total_fees :=
        foldl_induct totalsLineStep (pySplitLines fullText) ⟨.fin 0, 0, .fin 0⟩
          ⟨le_refl 0, le_refl 0⟩ (fun x _ b hb => totalsLineStep_nonneg b x hb)
      rw [extract_totals]
      by_cases hz : pyEqZeroB ((pySplitLines fullText).foldl totalsLineStep
          (⟨.fin 0, 0, .fin 0⟩ : Totals)).total_volume = true
      · rw [if_pos hz]
        exact foldl_induct totalsTableStep (tableRows pages) _ hlt
          (fun row hrow b hb => totalsTableStep_nonneg b row (hcells row hrow) hb)
      · rw [if_neg hz]
        exact hlt

/-- Witness for C2 (amended) on a line-only document with a benign
table. -/
theorem c2_witness :
    pyDecNonneg (extract_fees "VISA 1 10.00"
      [⟨Option.none, [[[some "VISA", some "2", some "5.00"]]]⟩]).assessment_fees ∧
    pyDecNonneg (cvGet (extract_card_volumes "VISA 1 10.00"
      [⟨Option.none, [[[some "VISA", some "2", some "5.00"]]]⟩]) Network.visa).volume ∧
    pyDecNonneg (extract_totals "VISA 1 10.00"
      [⟨Option.none, [[[some "VISA", some "2", some "5.00"]]]⟩]).total_volume := by
  have hc1 : cellNonnegOK (some "VISA") := by
    refine ⟨by decide, ?_, ?_⟩
    · show pyIsFin (safe_decimal (.str "VISA") (.fin 0)) = true
      rw [safe_decimal_evalNone "VISA" (.fin 0) (by decide)]
      rfl
    · show 0 ≤ pyFinVal (safe_decimal (.str "VISA") (.fin 0))
      rw [safe_decimal_evalNone "VISA" (.fin 0) (by decide)]
      exact le_refl 0
  have hc2 : cellNonnegOK (some "2") := by
    have hv : safe_decimal (.str "2") (.fin 0) = .fin 2 :=
      safe_decimal_finEvalP "2" (.fin 0) 2 0 2 (by decide) (by norm_num)
    refine ⟨by decide, ?_, ?_⟩
    · show pyIsFin (safe_decimal (.str "2") (.fin 0)) = true
      rw [hv]
      rfl
    · show 0 ≤ pyFinVal (safe_decimal (.str "2") (.fin 0))
      rw [hv]
      norm_num [pyFinVal]
  have hc3 : cellNonnegOK (some "5.00") := by
    have hv : safe_decimal (.str "5.00") (.fin 0) = .fin 5 :=
      safe_decimal_finEval "5.00" (.fin 0) 500 2 5 (by decide) (by norm_num)
    refine ⟨by decide, ?_, ?_⟩
    · show pyIsFin (safe_decimal (.str "5.00") (.fin 0)) = true
      rw [hv]
      rfl
    · show 0 ≤ pyFinVal (safe_decimal (.str "5.00") (.fin 0))
      rw [hv]
      norm_num [pyFinVal]
  have hcells : ∀ row ∈ tableRows [⟨Option.none, [[[some "VISA", some "2", some "5.00"]]]⟩],
      ∀ c ∈ row, cellNonnegOK c := by
    intro row hrow c hc
    rw [show tableRows [⟨Option.none, [[[some "VISA", some "2", some "5.00"]]]⟩] =
      [[some "VISA", some "2", some "5.00"]] from by decide] at hrow
    rcases List.mem_cons.mp hrow with h | h
    · subst h
      rcases List.mem_cons.mp hc with h | h
      · subst h; exact hc1
      · rcases List.mem_cons.mp h with h | h
        · subst h; exact hc2
        · rcases List.mem_cons.mp h with h | h
          · subst h; exact hc3
          · simp at h
    · simp at h
  have h := c2_nonneg_amended "VISA 1 10.00"
    [⟨Option.none, [[[some "VISA", some "2", some "5.00"]]]⟩]
  exact ⟨h.1.2.1, (h.2 hcells).1 Network.visa, (h.2 hcells).2.1⟩

/-- A matching row whose amount extraction aborts or finds nothing
leaves the fee dict unchanged. -/
theorem feeTableStep_none (f : Fees) (row : List (Option String))
    (h : feeRowMatch row = true) (hE : extract_amount_from_row row = Option.none) :
    feeTableStep f row = f := by
  rw [feeRowMatch, Bool.and_eq_true] at h
  have hlen : ¬(row.length < 2) := by
    have h1 := h.1
    rw [Bool.not_eq_true'] at h1
    exact of_decide_eq_false h1
  rw [feeTableStep, if_neg hlen, if_pos h.2]
  split
  · rename_i a hE2
    rw [hE] at hE2
    exact Option.noConfusion hE2
  · rfl

/-- C6 counterexample: a table row carrying an assessment-fee phrase
and a positive amount, with no line-scan hit, leaves the assessment
category at zero — the tabular fallback matches no phrase other than
the interchange total. -/
theorem c6_counterexample :
    extract_fees "" [⟨Option.none, [[[some "ASSESSMENT FEES", some "10.00"]]]⟩] = initFees ∧
    strContains (rowText [some "ASSESSMENT FEES", some "10.00"]) "ASSESSMENT FEES" = true ∧
    (extract_fees_lines "").assessment_fees = .fin 0 := by
  refine ⟨by decide, by decide, by decide⟩

/-- C6 (amended): the tabular fee fallback matches only the
`INTERCHANGE FEES TOTAL` phrase — the assessment, processing, monthly
and other categories come from the line scan alone — and when exactly
one table row matches, the interchange total becomes the Python `max`
of the line scan's value and the row's extracted amount (never their
sum). -/
theorem c6_fee_table_fallback (fullText : String) (pages : List Page) :
    ((extract_fees fullText pages).assessment_fees =
        (extract_fees_lines fullText).assessment_fees ∧
      (extract_fees fullText pages).processing_fees =
        (extract_fees_lines fullText).processing_fees ∧
      (extract_fees fullText pages).monthly_fees =
        (extract_fees_lines fullText).monthly_fees ∧
      (extract_fees fullText pages).other_fees =
        (extract_fees_lines fullText).other_fees) ∧
    (∀ r a, (tableRows pages).filter feeRowMatch = [r] →
      extract_amount_from_row r = some a →
      (extract_fees fullText pages).interchange_fees =
        pyMaxT (extract_fees_lines fullText).interchange_fees a) := by
  constructor
  · rw [extract_fees]
    refine ⟨?_, ?_, ?_, ?_⟩
    · exact foldl_proj_id feeTableStep (fun f => f.assessment_fees) (fun _ => false)
        (fun a b _ => (feeTableStep_others a b).1) (tableRows pages) _ (fun _ _ => rfl)
    · exact foldl_proj_id feeTableStep (fun f => f.processing_fees) (fun _ => false)
        (fun a b _ => (feeTableStep_others a b).2.1) (tableRows pages) _ (fun _ _ => rfl)
    · exact foldl_proj_id feeTableStep (fun f => f.monthly_fees) (fun _ => false)
        (fun a b _ => (feeTableStep_others a b).2.2.1) (tableRows pages) _ (fun _ _ => rfl)
    · exact foldl_proj_id feeTableStep (fun f => f.other_fees) (fun _ => false)
        (fun a b _ => (feeTableStep_others a b).2.2.2) (tableRows pages) _ (fun _ _ => rfl)
  · intro r a huniq ha
    rw [extract_fees]
    rw [foldl_proj_single feeTableStep (fun f => f.interchange_fees) feeRowMatch
      (fun x row => match extract_amount_from_row row with
        | some b => pyMaxT x b
        | Option.none => x)
      (fun f row hb => by rw [feeTableStep_nomatch f row hb])
      (fun f row hb => by
        show (feeTableStep f row).interchange_fees =
          match extract_amount_from_row row with
          | some b => pyMaxT f.interchange_fees b
          | Option.none => f.interchange_fees
        rcases hE : extract_amount_from_row row with _ | b
        · rw [feeTableStep_none f row hb hE]
        · rw [feeTableStep_match f row b hb hE])
      (tableRows pages) (extract_fees_lines fullText) r huniq]
    simp only [ha]

/-- Witness for C6: a table-only interchange row with nothing found by
the line scan. -/
theorem c6_witness :
    (extract_fees "" [⟨Option.none,
        [[[some "Interchange Fees Total", some "12.00"]]]⟩]).interchange_fees = .fin 12 ∧
    (extract_fees "" [⟨Option.none,
        [[[some "Interchange Fees Total", some "12.00"]]]⟩]).assessment_fees =
      (extract_fees_lines "").assessment_fees := by
  have hval : safe_decimal (.str "12.00") (.fin 0) = .fin 12 :=
    safe_decimal_finEval "12.00" (.fin 0) 1200 2 12 (by decide) (by norm_num)
  have hrow : extract_amount_from_row [some "Interchange Fees Total", some "12.00"] =
      some (.fin 12) := by
    rw [extract_amount_from_row,
      show ([some "Interchange Fees Total", some "12.00"]).reverse =
        [some "12.00", some "Interchange Fees Total"] from by decide]
    rw [extract_amount_from_row_aux, if_pos (by decide)]
    show (match pyGt (safe_decimal (.str "12.00") (.fin 0)) (.fin 0) with
      | some true => some (safe_decimal (.str "12.00") (.fin 0))
      | some false => extract_amount_from_row_aux [some "Interchange Fees Total"]
      | Option.none => Option.none) = some (.fin 12)
    rw [hval, show pyGt (PyDec.fin 12) (.fin 0) = some true from by decide]
  have h := c6_fee_table_fallback ""
    [⟨Option.none, [[[some "Interchange Fees Total", some "12.00"]]]⟩]
  constructor
  · rw [h.2 [some "Interchange Fees Total", some "12.00"] (.fin 12) (by decide) hrow]
    rw [show (extract_fees_lines "").interchange_fees = .fin 0 from by decide]
    decide
  · exact h.1.1

/-- C9 counterexample: two Visa table rows with gross 50.00 and 30.00;
the first carries a non-zero net-sales figure 70.00 in column 6, which
replaces the accumulated volume, so the final volume is 70 + 30 = 100
— not the 50 + 30 = 80 the claimed unconditional gross accumulation
would give (counts, in contrast, do accumulate to 3). -/
theorem c9_counterexample :
    (extract_card_volumes "" [⟨Option.none,
        [[[some "VISA", some "1", some "50.00", Option.none, Option.none, Option.none,
            some "70.00"],
          [some "VISA", some "2", some "30.00"]]]⟩]).visa.volume = .fin 100 ∧
    grossContrib [some "VISA", some "1", some "50.00", Option.none, Option.none, Option.none,
        some "70.00"] +
      grossContrib [some "VISA", some "2", some "30.00"] = 80 ∧
    (100 : ℚ) ≠ 80 ∧
    (extract_card_volumes "" [⟨Option.none,
        [[[some "VISA", some "1", some "50.00", Option.none, Option.none, Option.none,
            some "70.00"],
          [some "VISA", some "2", some "30.00"]]]⟩]).visa.count = 3 := by
  have h50 : safe_decimal (.str "50.00") (.fin 0) = .fin 50 :=
    safe_decimal_finEval "50.00" (.fin 0) 5000 2 50 (by decide) (by norm_num)
  have h70 : safe_decimal (.str "70.00") (.fin 0) = .fin 70 :=
    safe_decimal_finEval "70.00" (.fin 0) 7000 2 70 (by decide) (by norm_num)
  have h30 : safe_decimal (.str "30.00") (.fin 0) = .fin 30 :=
    safe_decimal_finEval "30.00" (.fin 0) 3000 2 30 (by decide) (by norm_num)
  have key : (extract_card_volumes "" [⟨Option.none,
      [[[some "VISA", some "1", some "50.00", Option.none, Option.none, Option.none,
          some "70.00"],
        [some "VISA", some "2", some "30.00"]]]⟩]).visa =
      parse_card_row [some "VISA", some "2", some "30.00"]
        (parse_card_row [some "VISA", some "1", some "50.00", Option.none, Option.none,
          Option.none, some "70.00"] ⟨.fin 0, 0⟩) := rfl
  have hov0 : rowOverrideB [some "VISA", some "1", some "50.00", Option.none, Option.none,
      Option.none, some "70.00"] = true := by
    rw [rowOverrideB,
      show netCell [some "VISA", some "1", some "50.00", Option.none, Option.none,
        Option.none, some "70.00"] = safe_decimal (.str "70.00") (.fin 0) from rfl,
      h70, pyNeZero_fin_true 70 (by norm_num)]
    rfl
  have hstep0 : parse_card_row [some "VISA", some "1", some "50.00", Option.none, Option.none,
      Option.none, some "70.00"] ⟨.fin 0, 0⟩ = ⟨.fin 70, 1⟩ := by
    rw [parse_card_row_over _ 0 0
      (by
        intro _
        show safe_decimal (.str "50.00") (.fin 0) ≠ .nan true
        rw [h50]
        intro hc
        exact PyDec.noConfusion hc)
      hov0]
    rw [show netCell [some "VISA", some "1", some "50.00", Option.none, Option.none,
      Option.none, some "70.00"] = safe_decimal (.str "70.00") (.fin 0) from rfl, h70]
    rw [show countContrib [some "VISA", some "1", some "50.00", Option.none, Option.none,
      Option.none, some "70.00"] = 1 from by decide]
    decide
  have hg30 : grossContrib [some "VISA", some "2", some "30.00"] = 30 := by
    rw [grossContrib, if_pos (by decide)]
    show pyFinVal (safe_decimal (.str "30.00") (.fin 0)) = 30
    rw [h30]
    rfl
  have hstep1 : parse_card_row [some "VISA", some "2", some "30.00"]
      (⟨.fin 70, 1⟩ : CardVol) = ⟨.fin 100, 3⟩ := by
    rw [parse_card_row_no_over _ 70 1
      (by
        intro _
        show pyIsFin (safe_decimal (.str "30.00") (.fin 0)) = true
        rw [h30]
        rfl)
      (by decide)]
    rw [hg30, show countContrib [some "VISA", some "2", some "30.00"] = 2 from by decide]
    show (⟨.fin (70 + 30), 1 + 2⟩ : CardVol) = ⟨.fin 100, 3⟩
    norm_num
  have hg50 : grossContrib [some "VISA", some "1", some "50.00", Option.none, Option.none,
      Option.none, some "70.00"] = 50 := by
    rw [grossContrib, if_pos (by decide)]
    show pyFinVal (safe_decimal (.str "50.00") (.fin 0)) = 50
    rw [h50]
    rfl
  refine ⟨?_, ?_, by norm_num, ?_⟩
  · rw [key, hstep0, hstep1]
  · rw [hg50, hg30]
    norm_num
  · rw [key, hstep0, hstep1]

/-- C9 (amended): in the text-line layer the last matching line for a
network overwrites earlier matches (the result is the parse of the
final matching line, or zero when none match).  In the tabular
fallback, over rows whose numeric cells are ASCII and convert to
finite values: the transaction counts of all rows classified as the
network are always added; the gross sales are added only as long as no
such row carries an effective net-sales override (truthy column 6 with
`net_sales != 0` true) — an overriding row replaces the accumulated
volume with its net figure, so in general the final volume is the last
overriding row's net plus the gross of the matching rows after it. -/
theorem c9_amended (n : Network) (fullText : String) (pages : List Page) (cv0 : CardVolumes)
    (hfin : ∀ row ∈ tableRows pages, cardRowNetwork row = some n → rowFinOK row)
    (hsnan : ∀ m, (cvGet cv0 m).volume ≠ .nan true) :
    cvGet (extract_card_volumes_lines fullText) n =
      (match ((pySplitLines fullText).filterMap (lineMatchFor n)).getLast? with
       | some p => ⟨safe_decimal (.str p.2) (.fin 0), safe_int (.str p.1) 0⟩
       | Option.none => ⟨.fin 0, 0⟩) ∧
    (cvGet ((tableRows pages).foldl cardTableStep cv0) n).count =
      (cvGet cv0 n).count +
        (((tableRows pages).filter (fun row => decide (cardRowNetwork row = some n))).map
          countContrib).sum ∧
    (∀ v0 : ℚ, (cvGet cv0 n).volume = .fin v0 →
      (∀ row ∈ (tableRows pages).filter (fun row => decide (cardRowNetwork row = some n)),
        rowOverrideB row = false) →
      (cvGet ((tableRows pages).foldl cardTableStep cv0) n).volume =
        .fin (v0 + (((tableRows pages).filter
          (fun row => decide (cardRowNetwork row = some n))).map grossContrib).sum)) ∧
    (∀ v0 : ℚ, (cvGet cv0 n).volume = .fin v0 →
      ∀ l1 r0 l2,
        (tableRows pages).filter (fun row => decide (cardRowNetwork row = some n)) =
          l1 ++ r0 :: l2 →
        rowOverrideB r0 = true → (∀ row ∈ l2, rowOverrideB row = false) →
        (cvGet ((tableRows pages).foldl cardTableStep cv0) n).volume =
          .fin (pyFinVal (netCell r0) + (l2.map grossContrib).sum)) := by
  refine ⟨?_, ?_, ?_, ?_⟩
  · rw [extract_card_volumes_lines, cardLineStep_foldl_last n]
    rcases ((pySplitLines fullText).filterMap (lineMatchFor n)).getLast? with _ | p
    · cases n <;> rfl
    · rfl
  · exact cardTableStep_foldl_count n (tableRows pages) cv0 hsnan hfin
  · intro v0 hv0 hno
    exact cardTableStep_foldl_noover n (tableRows pages) cv0 v0 hfin
      (fun row hrow hcl => hno row (List.mem_filter.mpr ⟨hrow, decide_eq_true hcl⟩))
      hv0
  · intro v0 hv0 l1 r0 l2 hsplit hov hno
    obtain ⟨t1, t2, htr, hf1, hf2, hpr⟩ :=
      filter_split (fun row => decide (cardRowNetwork row = some n)) (tableRows pages)
        l1 r0 l2 hsplit
    have hmem1 : ∀ row ∈ t1, row ∈ tableRows pages := by
      intro row hr
      rw [htr]
      exact List.mem_append_left _ hr
    have hmem2 : ∀ row ∈ t2, row ∈ tableRows pages := by
      intro row hr
      rw [htr]
      exact List.mem_append_right _ (List.mem_cons_of_mem r0 hr)
    have hmem0 : r0 ∈ tableRows pages := by
      rw [htr]
      exact List.mem_append_right _ (List.mem_cons_self r0 t2)
    have hr0cl : cardRowNetwork r0 = some n := of_decide_eq_true hpr
    have hr0fin : rowFinOK r0 := hfin r0 hmem0 hr0cl
    rw [htr, List.foldl_append, List.foldl_cons]
    have hfin1 : pyIsFin (cvGet (t1.foldl cardTableStep cv0) n).volume = true := by
      refine cardTableStep_foldl_fin n t1 cv0 (fun row hr => hfin row (hmem1 row hr)) ?_
      rw [hv0]
      rfl
    have heta : cvGet (t1.foldl cardTableStep cv0) n =
        ⟨.fin (pyFinVal (cvGet (t1.foldl cardTableStep cv0) n).volume),
          (cvGet (t1.foldl cardTableStep cv0) n).count⟩ := by
      rw [← pyIsFin_val _ hfin1]
    have hstep : cvGet (cardTableStep (t1.foldl cardTableStep cv0) r0) n =
        ⟨netCell r0, (cvGet (t1.foldl cardTableStep cv0) n).count + countContrib r0⟩ := by
      rw [cardTableStep_eq _ r0 n hpr, heta]
      exact parse_card_row_over r0 _ _
        (fun hg => by
          rw [pyIsFin_val _ (hr0fin.2.2.2.1 hg)]
          intro hc
          exact PyDec.noConfusion hc)
        hov
    have hnetfin : pyIsFin (netCell r0) = true := by
      refine hr0fin.2.2.2.2 ?_
      rw [rowOverrideB, Bool.and_eq_true] at hov
      exact hov.1
    refine cardTableStep_foldl_noover n t2 _ (pyFinVal (netCell r0))
      (fun row hr => hfin row (hmem2 row hr)) ?_ ?_ |>.trans ?_
    · intro row hr hcl
      refine hno row ?_
      rw [← hf2]
      exact List.mem_filter.mpr ⟨hr, decide_eq_true hcl⟩
    · rw [hstep]
      show netCell r0 = PyDec.fin (pyFinVal (netCell r0))
      exact pyIsFin_val _ hnetfin
    · rw [hf2]

/-- Witness for C9: two VISA lines (last wins), and a two-row table
whose first Visa row carries a net-sales override — counts add to 3
and the volume is the override's 70 plus the later row's gross 30. -/
theorem c9_witness :
    cvGet (extract_card_volumes_lines "VISA 1 10.00\nVISA 2 20.00") Network.visa =
      ⟨.fin 20, 2⟩ ∧
    (cvGet ((tableRows [⟨Option.none,
        [[[some "VISA", some "1", some "50.00", Option.none, Option.none, Option.none,
            some "70.00"],
          [some "VISA", some "2", some "30.00"]]]⟩]).foldl cardTableStep initCardVolumes)
      Network.visa).count = 3 ∧
    (cvGet ((tableRows [⟨Option.none,
        [[[some "VISA", some "1", some "50.00", Option.none, Option.none, Option.none,
            some "70.00"],
          [some "VISA", some "2", some "30.00"]]]⟩]).foldl cardTableStep initCardVolumes)
      Network.visa).volume = .fin 100 := by
  have h70 : safe_decimal (.str "70.00") (.fin 0) = .fin 70 :=
    safe_decimal_finEval "70.00" (.fin 0) 7000 2 70 (by decide) (by norm_num)
  have h30 : safe_decimal (.str "30.00") (.fin 0) = .fin 30 :=
    safe_decimal_finEval "30.00" (.fin 0) 3000 2 30 (by decide) (by norm_num)
  have h20 : safe_decimal (.str "20.00") (.fin 0) = .fin 20 :=
    safe_decimal_finEval "20.00" (.fin 0) 2000 2 20 (by decide) (by norm_num)
  have hov0 : rowOverrideB [some "VISA", some "1", some "50.00", Option.none, Option.none,
      Option.none, some "70.00"] = true := by
    rw [rowOverrideB,
      show netCell [some "VISA", some "1", some "50.00", Option.none, Option.none,
        Option.none, some "70.00"] = safe_decimal (.str "70.00") (.fin 0) from rfl,
      h70, pyNeZero_fin_true 70 (by norm_num)]
    rfl
  have h := c9_amended Network.visa "VISA 1 10.00\nVISA 2 20.00"
    [⟨Option.none,
      [[[some "VISA", some "1", some "50.00", Option.none, Option.none, Option.none,
          some "70.00"],
        [some "VISA", some "2", some "30.00"]]]⟩] initCardVolumes
    (by decide) (by intro m; cases m <;> (intro hc; exact PyDec.noConfusion hc))
  refine ⟨?_, ?_, ?_⟩
  · rw [h.1,
      show (((pySplitLines "VISA 1 10.00\nVISA 2 20.00").filterMap
        (lineMatchFor Network.visa))).getLast? = some ("2", "20.00") from by decide]
    show (⟨safe_decimal (.str "20.00") (.fin 0), safe_int (.str "2") 0⟩ : CardVol) =
      ⟨.fin 20, 2⟩
    rw [h20, show safe_int (.str "2") 0 = 2 from by decide]
  · rw [h.2.1]
    decide
  · rw [h.2.2.2 0 rfl []
      [some "VISA", some "1", some "50.00", Option.none, Option.none, Option.none,
        some "70.00"]
      [[some "VISA", some "2", some "30.00"]]
      (by decide) hov0 (by decide)]
    rw [show netCell [some "VISA", some "1", some "50.00", Option.none, Option.none,
      Option.none, some "70.00"] = safe_decimal (.str "70.00") (.fin 0) from rfl, h70]
    rw [show (([[some "VISA", some "2", some "30.00"]] :
        List (List (Option String))).map grossContrib).sum =
      grossContrib [some "VISA", some "2", some "30.00"] + 0 from rfl]
    rw [show grossContrib [some "VISA", some "2", some "30.00"] =
      pyFinVal (safe_decimal (.str "30.00") (.fin 0)) from by
        rw [grossContrib, if_pos (by decide)]
        rfl,
      h30]
    show PyDec.fin (70 + (30 + 0)) = .fin 100
    norm_num
